import Mathlib

/-!
Verification development for the geocoin-carrier grid game
(`src/board.ts` and the final revision of `src/main.ts`).

The embedding is shallow: TypeScript objects become Lean structures,
the mutable JavaScript `Map`s become association lists in insertion
order (`getEntry` / `setEntry` mirror `Map.get` / `Map.set`), the
event handlers become state-transforming functions, and `localStorage`
becomes an `Option` field of the game state.  Coordinates and the
opaque deterministic luck function are modelled over the rationals.
-/

/-- Association-list lookup, mirroring JavaScript `Map.get`:
returns the value of the first entry with the given key. -/
def getEntry {α : Type} (k : String) : List (String × α) → Option α
  | [] => none
  | e :: rest => if e.1 = k then some e.2 else getEntry k rest

/-- Association-list update, mirroring JavaScript `Map.set`:
overwrites the first entry with the given key in place (keeping its
position, as a JS `Map` keeps insertion order), or appends a fresh
entry at the end when the key is absent. -/
def setEntry {α : Type} (k : String) (v : α) : List (String × α) → List (String × α)
  | [] => [(k, v)]
  | e :: rest => if e.1 = k then (k, v) :: rest else e :: setEntry k v rest

namespace Canon

/-- A canonical cell object as allocated by `Board.getCanonicalCell` in
`src/board.ts`.  The `ref` field is an explicit allocation tag standing
for the JavaScript object reference: two `CellObj`s are the same object
exactly when they are equal, including `ref`. -/
structure CellObj where
  ref : Nat
  i : Int
  j : Int
deriving DecidableEq

/-- The canonicalizer state of `Board` in `src/board.ts`: `knownCells`
mirrors the private `Map<string, Cell>`, and `nextRef` is the allocation
counter supplying fresh object references. -/
structure Board where
  knownCells : List (String × CellObj)
  nextRef : Nat
deriving DecidableEq

/-- The string key `[i, j].toString()` computed by `getCanonicalCell`
(JavaScript array `toString` joins with a comma). -/
def cellKey (i j : Int) : String := toString i ++ "," ++ toString j

/-- `Board.getCanonicalCell` from `src/board.ts`: when the key is absent
the call stores a freshly allocated `{ i, j }` object, and in either case
it returns the object stored under the key. -/
def getCanonicalCell (b : Board) (i j : Int) : CellObj × Board :=
  match getEntry (cellKey i j) b.knownCells with
  | some c => (c, b)
  | none =>
      let c : CellObj := { ref := b.nextRef, i := i, j := j }
      (c, { knownCells := setEntry (cellKey i j) c b.knownCells, nextRef := b.nextRef + 1 })

/-- Folding an arbitrary sequence of canonicalizer calls over the board,
keeping only the final board state. -/
def runCalls (b : Board) : List (Int × Int) → Board
  | [] => b
  | p :: ps => runCalls (getCanonicalCell b p.1 p.2).2 ps

end Canon


namespace Geo

/-- A grid cell of the game logic (`Cell` in `src/board.ts`), identified
by its integer indices. -/
structure Cell where
  i : Int
  j : Int
deriving DecidableEq

/-- A coin (`Coin` in `src/board.ts`): both fields are `readonly` and set
once by the constructor. -/
structure Coin where
  spawnLocation : Cell
  serial : Nat
deriving DecidableEq

/-- A cache (`Cache` in `src/board.ts`): ordered coin list with stack
discipline, the next-serial counter, and the spawn cell. -/
structure Cache where
  coins : List Coin
  serialNumber : Nat
  location : Cell
deriving DecidableEq

/-- A latitude/longitude point, modelled over the rationals. -/
structure LatLng where
  lat : ℚ
  lng : ℚ
deriving DecidableEq

/-- The layout of the JSON snapshot written by `saveGameState`. -/
structure GameSave where
  playerWallet : List Coin
  cacheStates : List (String × List Coin)
  movementHistory : List LatLng
deriving DecidableEq

/-- Contents of the `localStorage` slot: `wellFormed` is a snapshot that
`JSON.parse` reads back intact, `malformed` stands for any stored string
on which parsing (or the subsequent shape-dependent accesses) throws. -/
inductive Stored where
  | wellFormed (g : GameSave)
  | malformed
deriving DecidableEq

/-- The mutable session state of the final revision of `src/main.ts`:
wallet, memento store (`cacheStates`), currently rendered caches
(`activeCacheRects` together with the cache objects captured by their
popup closures), movement history, marker position, and `localStorage`. -/
structure GameState where
  playerWallet : List Coin
  cacheStates : List (String × List Coin)
  activeCaches : List (String × Cache)
  movementHistory : List LatLng
  playerPos : LatLng
  storage : Option Stored
deriving DecidableEq

def TILE_DEGREES : ℚ := 1 / 10000

def NEIGHBORHOOD_SIZE : Nat := 8

def CACHE_SPAWN_PROBABILITY : ℚ := 1 / 10

def OAKES_CLASSROOM : LatLng := { lat := 369894 / 10000, lng := -1220627 / 10000 }

/-- `cellToString` from `src/main.ts`: the key \x22i:j\x22. -/
def cellToString (c : Cell) : String := toString c.i ++ ":" ++ toString c.j

/-- `serializeCoin` from `src/main.ts`: the identity string \x22i:j#serial\x22. -/
def serializeCoin (coin : Coin) : String :=
  toString coin.spawnLocation.i ++ ":" ++ toString coin.spawnLocation.j
    ++ "#" ++ toString coin.serial

/-- `cellLuck` from `src/main.ts`, with the deterministic luck function
kept as an opaque parameter. -/
def cellLuck (luck : String → ℚ) (cell : Cell) : ℚ := luck (cellToString cell)

/-- `Board.getCellsNearPoint` from `src/board.ts`, instantiated with the
game's tile width and visibility radius: the square window of cells in
row-major order around the origin cell of the point. -/
def cellsNearPoint (p : LatLng) : List Cell :=
  let oi := Int.floor (p.lat / TILE_DEGREES)
  let oj := Int.floor (p.lng / TILE_DEGREES)
  (List.range (2 * NEIGHBORHOOD_SIZE + 1)).flatMap (fun di =>
    (List.range (2 * NEIGHBORHOOD_SIZE + 1)).map (fun dj =>
      { i := oi - (NEIGHBORHOOD_SIZE : Int) + Int.ofNat di,
        j := oj - (NEIGHBORHOOD_SIZE : Int) + Int.ofNat dj }))

/-- The coin-filling loop of `Board.createNewCache`: push a coin with the
current serial and increment the counter, `n` times. -/
def pushCoins (cell : Cell) : Nat → Cache → Cache
  | 0, cache => cache
  | n + 1, cache =>
      pushCoins cell n
        { cache with
          coins := cache.coins ++ [{ spawnLocation := cell, serial := cache.serialNumber }],
          serialNumber := cache.serialNumber + 1 }

/-- `Board.createNewCache` from `src/board.ts`. -/
def createNewCache (cell : Cell) (numCoins : Nat) : Cache :=
  pushCoins cell numCoins { coins := [], serialNumber := 0, location := cell }

/-- `Math.floor(cellLuck(cell) * 100)` as used by `spawnCache`, clamped
to `Nat` as the loop bound of `createNewCache`. -/
def spawnCount (luck : String → ℚ) (k : String) : Nat := (Int.floor (luck k * 100)).toNat

/-- The coins of a freshly spawned cache: serials `0 .. n-1` in order,
all at the spawn cell. -/
def origCoins (cell : Cell) (n : Nat) : List Coin :=
  (List.range n).map (fun s => { spawnLocation := cell, serial := s })

/-- `spawnCache` from `src/main.ts`: create the cache, copy its coins
into the memento store, and render it (the rectangle plus the cache
object captured by its popup become the active entry). -/
def spawnCache (luck : String → ℚ) (s : GameState) (cellToSpawn : Cell) : GameState :=
  let pointValue := spawnCount luck (cellToString cellToSpawn)
  let cache := createNewCache cellToSpawn pointValue
  { s with
    cacheStates := setEntry (cellToString cellToSpawn) cache.coins s.cacheStates,
    activeCaches := setEntry (cellToString cellToSpawn) cache s.activeCaches }

/-- `restoreCache` from `src/main.ts`: rebuild a transient cache view
from the stored coins and render it.  The non-null assertion on
`cacheStates.get` is modelled by the `none` branch returning the state
unchanged; callers only invoke it when the entry exists. -/
def restoreCache (s : GameState) (cell : Cell) : GameState :=
  match getEntry (cellToString cell) s.cacheStates with
  | some savedCoins =>
      let cache : Cache :=
        { location := cell, coins := savedCoins, serialNumber := savedCoins.length }
      { s with activeCaches := setEntry (cellToString cell) cache s.activeCaches }
  | none => s

/-- `spawnCacheIfNeeded` from `src/main.ts`. -/
def spawnCacheIfNeeded (luck : String → ℚ) (s : GameState) (cell : Cell) : GameState :=
  if getEntry (cellToString cell) s.cacheStates = none then
    if cellLuck luck cell < CACHE_SPAWN_PROBABILITY then spawnCache luck s cell else s
  else s

/-- `restoreCacheIfNeeded` from `src/main.ts`. -/
def restoreCacheIfNeeded (s : GameState) (cell : Cell) : GameState :=
  if (getEntry (cellToString cell) s.cacheStates).isSome = true
      ∧ getEntry (cellToString cell) s.activeCaches = none then
    restoreCache s cell
  else s

/-- `removeInactiveCaches` from `src/main.ts`: evict every rendered cache
whose key is no longer in the visible set. -/
def removeInactiveCaches (visibleCells : List String) (s : GameState) : GameState :=
  { s with activeCaches := s.activeCaches.filter (fun e => visibleCells.contains e.1) }

/-- `populateMap` from the final revision of `src/main.ts`.  The code
iterates the visible key set and maps each key back to its cell through
`board.getCellAtKey` (a `Board` method whose definition is not part of
`src/board.ts`); since the visible keys are exactly the strings of the
canonical cells produced by `getCellsNearPoint`, the refresh is modelled
as iterating those cells directly, spawning or restoring per cell and
then evicting the out-of-range renderings. -/
def populateMap (luck : String → ℚ) (s : GameState) : GameState :=
  let cells := cellsNearPoint s.playerPos
  removeInactiveCaches (cells.map cellToString)
    (cells.foldl (fun st c => restoreCacheIfNeeded (spawnCacheIfNeeded luck st c) c) s)

/-- `movePlayer` from the final revision of `src/main.ts`: shift the
marker, append to the movement history, refresh the visible window.  It
does not write to `localStorage`. -/
def movePlayer (luck : String → ℚ) (s : GameState) (deltaLat deltaLng : ℚ) : GameState :=
  let location : LatLng := { lat := s.playerPos.lat + deltaLat, lng := s.playerPos.lng + deltaLng }
  populateMap luck
    { s with playerPos := location, movementHistory := s.movementHistory ++ [location] }

/-- `saveGameState` from `src/main.ts`: synchronous snapshot of wallet,
store entries, and movement history into `localStorage`. -/
def saveGameState (s : GameState) : GameState :=
  { s with storage := some (Stored.wellFormed
      { playerWallet := s.playerWallet, cacheStates := s.cacheStates,
        movementHistory := s.movementHistory }) }

/-- The collect click handler bound by `createPopupContent`, acting on
the rendered cache at the given key: pop the cache's last coin, push it
onto the wallet, write the updated list back to the store, persist.
Empty cache (or no rendered cache at the key): no-op. -/
def collect (s : GameState) (key : String) : GameState :=
  match getEntry key s.activeCaches with
  | none => s
  | some cache =>
      match cache.coins.getLast? with
      | none => s
      | some coin =>
          saveGameState
            { s with
              activeCaches := setEntry key { cache with coins := cache.coins.dropLast }
                s.activeCaches,
              playerWallet := s.playerWallet ++ [coin],
              cacheStates := setEntry key cache.coins.dropLast s.cacheStates }

/-- The deposit click handler bound by `createPopupContent`: pop the
wallet's last coin, push it onto the rendered cache's list, write back
to the store, persist.  Empty wallet: no-op. -/
def deposit (s : GameState) (key : String) : GameState :=
  match getEntry key s.activeCaches with
  | none => s
  | some cache =>
      match s.playerWallet.getLast? with
      | none => s
      | some coin =>
          saveGameState
            { s with
              activeCaches := setEntry key { cache with coins := cache.coins ++ [coin] }
                s.activeCaches,
              playerWallet := s.playerWallet.dropLast,
              cacheStates := setEntry key (cache.coins ++ [coin]) s.cacheStates }

/-- `loadGameState` from `src/main.ts`.  A missing snapshot skips the
whole body; a malformed snapshot makes `JSON.parse` throw, and there is
no surrounding try/catch, so the failure propagates (`Except.error`).
A well-formed snapshot replaces wallet, store, and history, repositions
the player at the last history entry when the history is non-empty, and
re-runs the visibility refresh. -/
def loadGameState (luck : String → ℚ) (s : GameState) : Except Unit GameState :=
  match s.storage with
  | none => Except.ok s
  | some Stored.malformed => Except.error ()
  | some (Stored.wellFormed g) =>
      let s2 := { s with playerWallet := g.playerWallet, cacheStates := g.cacheStates,
                         movementHistory := g.movementHistory }
      Except.ok (populateMap luck
        (match g.movementHistory.getLast? with
         | some lastLocation => { s2 with playerPos := lastLocation }
         | none => s2))

/-- The per-entry rewrite of the reset handler: for each entry of the
store, `cacheStates.set(key, [...coins])`. -/
def rewriteStore (st : List (String × List Coin)) : List (String × List Coin) :=
  st.foldl (fun acc e => setEntry e.1 e.2 acc) st

/-- The confirmed branch of the `reset-game` click handler up to and
including the wallet reset, the per-entry store rewrite, the eviction of
all renderings, the history truncation to its first entry, and the
marker repositioning. -/
def resetCore (s : GameState) : GameState :=
  { s with
    playerWallet := [],
    cacheStates := rewriteStore s.cacheStates,
    activeCaches := [],
    movementHistory := s.movementHistory.take 1,
    playerPos := OAKES_CLASSROOM }

/-- The full confirmed reset handler: clear, persist, then repopulate. -/
def resetGame (luck : String → ℚ) (s : GameState) : GameState :=
  populateMap luck (saveGameState (resetCore s))

/-- The initial session state, before `loadGameState()` runs at startup:
empty wallet and store, history holding only the start location. -/
def initialState : GameState :=
  { playerWallet := [], cacheStates := [], activeCaches := [],
    movementHistory := [OAKES_CLASSROOM], playerPos := OAKES_CLASSROOM, storage := none }

/-- The multiset of coins held across all store entries. -/
def storeM (st : List (String × List Coin)) : Multiset Coin :=
  (st.map (fun e => ((e.2 : List Coin) : Multiset Coin))).sum

/-- The combined coin population of a session: wallet plus store. -/
def totalM (s : GameState) : Multiset Coin :=
  (s.playerWallet : Multiset Coin) + storeM s.cacheStates

/-- The spec quantity `sum(card(cache.coins) for all store entries)`. -/
def storeLen (st : List (String × List Coin)) : Nat :=
  (st.map (fun e => e.2.length)).sum

/-- Total number of coins ever spawned, computed from the store keys:
each entry was created exactly once by a spawn of `spawnCount` coins. -/
def sumSpawn (luck : String → ℚ) (st : List (String × List Coin)) : Nat :=
  ((st.map Prod.fst).map (spawnCount luck)).sum

/-- The per-cell body of the `populateMap` loop: spawn if needed, then
restore if needed. -/
def refreshStep (luck : String → ℚ) (st : GameState) (c : Cell) : GameState :=
  restoreCacheIfNeeded (spawnCacheIfNeeded luck st c) c

/-- The multiset of originally spawned coins named by a spawn record:
one `origCoins` block per store key, tagged with the spawning cell. -/
def recordM (luck : String → ℚ) (sp : List (String × Cell)) : Multiset Coin :=
  (sp.map (fun e => ((origCoins e.2 (spawnCount luck e.1) : List Coin) : Multiset Coin))).sum

/-- The session invariant behind coin conservation: store and rendering
keys are duplicate-free, every rendered cache's coin list agrees with
its store entry, and the combined coin population (wallet plus store)
is exactly the multiset of coins originally spawned, one `origCoins`
block per store entry. -/
structure Inv (luck : String → ℚ) (s : GameState) : Prop where
  storeNodup : (s.cacheStates.map Prod.fst).Nodup
  activeNodup : (s.activeCaches.map Prod.fst).Nodup
  sync : ∀ e ∈ s.activeCaches, getEntry e.1 s.cacheStates = some e.2.coins
  record : ∃ sp : List (String × Cell),
    sp.map Prod.fst = s.cacheStates.map Prod.fst ∧
    (∀ e ∈ sp, cellToString e.2 = e.1) ∧
    totalM s = recordM luck sp

/-- Session states reachable from a fresh session by movement events
(keyboard or geolocation), collect events, and deposit events. -/
inductive Reach (luck : String → ℚ) : GameState → Prop where
  | init : Reach luck initialState
  | move (s : GameState) (dLat dLng : ℚ) : Reach luck s → Reach luck (movePlayer luck s dLat dLng)
  | collectEv (s : GameState) (k : String) : Reach luck s → Reach luck (collect s k)
  | depositEv (s : GameState) (k : String) : Reach luck s → Reach luck (deposit s k)

end Geo

theorem getEntry_setEntry_self {α : Type} (k : String) (v : α) (l : List (String × α)) :
    getEntry k (setEntry k v l) = some v := by
  induction l with
  | nil => simp [getEntry, setEntry]
  | cons e rest ih =>
      by_cases h : e.1 = k
      · simp [getEntry, setEntry, h]
      · simp [getEntry, setEntry, h, ih]

theorem getEntry_setEntry_ne {α : Type} {k k' : String} (hne : k' ≠ k) (v : α)
    (l : List (String × α)) : getEntry k' (setEntry k v l) = getEntry k' l := by
  induction l with
  | nil => simp [getEntry, setEntry, Ne.symm hne]
  | cons e rest ih =>
      by_cases h : e.1 = k
      · have hek : ¬ ((k : String) = k') := fun hk => hne hk.symm
        have he2 : ¬ (e.1 = k') := by rw [h]; exact hek
        simp [setEntry, h, getEntry, hek, he2]
      · by_cases h3 : e.1 = k'
        · simp [setEntry, h, getEntry, h3, hne]
        · simp [setEntry, h, getEntry, h3, ih]

theorem setEntry_of_getEntry_none {α : Type} {k : String} {l : List (String × α)}
    (h : getEntry k l = none) (v : α) : setEntry k v l = l ++ [(k, v)] := by
  induction l with
  | nil => simp [setEntry]
  | cons e rest ih =>
      by_cases he : e.1 = k
      · simp [getEntry, he] at h
      · simp [getEntry, he] at h
        simp [setEntry, he, ih h]

theorem getEntry_eq_none_iff {α : Type} {k : String} {l : List (String × α)} :
    getEntry k l = none ↔ k ∉ l.map Prod.fst := by
  induction l with
  | nil => simp [getEntry]
  | cons e rest ih =>
      by_cases he : e.1 = k
      · simp [getEntry, he]
      · simp [getEntry, he, ih]
        intro hk
        exact fun h => he (h ▸ rfl)

theorem mem_of_getEntry_some {α : Type} {k : String} {v : α} {l : List (String × α)}
    (h : getEntry k l = some v) : (k, v) ∈ l := by
  induction l with
  | nil => simp [getEntry] at h
  | cons e rest ih =>
      by_cases he : e.1 = k
      · simp [getEntry, he] at h
        have hev : e = (k, v) := by
          cases e
          simp at he h ⊢
          exact ⟨he, h⟩
        rw [← hev]
        exact List.mem_cons_self e rest
      · simp [getEntry, he] at h
        exact List.mem_cons_of_mem _ (ih h)

theorem keys_setEntry_of_some {α : Type} {k : String} {w : α} {l : List (String × α)}
    (h : getEntry k l = some w) (v : α) :
    (setEntry k v l).map Prod.fst = l.map Prod.fst := by
  induction l with
  | nil => simp [getEntry] at h
  | cons e rest ih =>
      by_cases he : e.1 = k
      · simp [setEntry, he]
      · simp [getEntry, he] at h
        simp [setEntry, he, ih h]

theorem keys_setEntry_of_none {α : Type} {k : String} {l : List (String × α)}
    (h : getEntry k l = none) (v : α) :
    (setEntry k v l).map Prod.fst = l.map Prod.fst ++ [k] := by
  rw [setEntry_of_getEntry_none h]
  simp

theorem getEntry_append_left {α : Type} {k : String} {l : List (String × α)} (tail : List (String × α))
    {v : α} (h : getEntry k l = some v) : getEntry k (l ++ tail) = some v := by
  induction l with
  | nil => simp [getEntry] at h
  | cons e rest ih =>
      by_cases he : e.1 = k
      · simp [getEntry, he] at h ⊢
        exact h
      · simp [getEntry, he] at h ⊢
        exact ih h

theorem mem_setEntry {α : Type} {k : String} {v : α} {l : List (String × α)}
    (hnd : (l.map Prod.fst).Nodup) {e : String × α} (he : e ∈ setEntry k v l) :
    e = (k, v) ∨ (e ∈ l ∧ e.1 ≠ k) := by
  induction l with
  | nil =>
      simp [setEntry] at he
      exact Or.inl he
  | cons f rest ih =>
      rw [List.map_cons, List.nodup_cons] at hnd
      by_cases hf : f.1 = k
      · simp only [setEntry, if_pos hf] at he
        rcases List.mem_cons.1 he with h | h
        · exact Or.inl h
        · right
          refine ⟨List.mem_cons_of_mem _ h, fun hk => ?_⟩
          apply hnd.1
          rw [hf, ← hk]
          exact List.mem_map_of_mem Prod.fst h
      · simp only [setEntry, if_neg hf] at he
        rcases List.mem_cons.1 he with h | h
        · right
          constructor
          · exact h ▸ List.mem_cons_self f rest
          · rw [h]; exact hf
        · rcases ih hnd.2 h with h2 | h2
          · exact Or.inl h2
          · exact Or.inr ⟨List.mem_cons_of_mem _ h2.1, h2.2⟩

theorem getEntry_of_mem_nodup {α : Type} {l : List (String × α)}
    (hnd : (l.map Prod.fst).Nodup) {e : String × α} (he : e ∈ l) :
    getEntry e.1 l = some e.2 := by
  induction l with
  | nil => simp at he
  | cons f rest ih =>
      rw [List.map_cons, List.nodup_cons] at hnd
      rcases List.mem_cons.1 he with h | h
      · simp [getEntry, h]
      · have hne : ¬ (f.1 = e.1) := by
          intro hk
          apply hnd.1
          rw [hk]
          exact List.mem_map_of_mem Prod.fst h
        simp [getEntry, hne]
        exact ih hnd.2 h

theorem setEntry_of_mem_self {α : Type} {k : String} {v : α} {l : List (String × α)}
    (h : getEntry k l = some v) : setEntry k v l = l := by
  induction l with
  | nil => simp [getEntry] at h
  | cons e rest ih =>
      by_cases he : e.1 = k
      · simp [getEntry, he] at h
        simp only [setEntry, if_pos he]
        cases e
        simp at he h ⊢
        exact ⟨he.symm, h.symm⟩
      · simp [getEntry, he] at h
        simp [setEntry, he, ih h]

namespace Canon

theorem getCanonicalCell_of_some {b : Board} {i j : Int} {c : CellObj}
    (h : getEntry (cellKey i j) b.knownCells = some c) :
    getCanonicalCell b i j = (c, b) := by
  simp [getCanonicalCell, h]

theorem getCanonicalCell_preserves {b : Board} {k : String} {c : CellObj}
    (h : getEntry k b.knownCells = some c) (i j : Int) :
    getEntry k (getCanonicalCell b i j).2.knownCells = some c := by
  cases hx : getEntry (cellKey i j) b.knownCells with
  | some c2 => simp [getCanonicalCell, hx, h]
  | none =>
      have hk : k ≠ cellKey i j := by
        intro hkk
        rw [hkk, hx] at h
        cases h
      simp only [getCanonicalCell, hx]
      rw [getEntry_setEntry_ne hk]
      exact h

theorem runCalls_preserves {k : String} {c : CellObj} :
    ∀ (ps : List (Int × Int)) (b : Board), getEntry k b.knownCells = some c →
      getEntry k (runCalls b ps).knownCells = some c
  | [], _, h => h
  | p :: ps, _, h => runCalls_preserves ps _ (getCanonicalCell_preserves h p.1 p.2)

end Canon

namespace Canon

theorem getCanonicalCell_of_none {b : Board} {i j : Int}
    (h : getEntry (cellKey i j) b.knownCells = none) :
    getCanonicalCell b i j =
      ({ ref := b.nextRef, i := i, j := j },
       { knownCells := b.knownCells ++ [(cellKey i j, { ref := b.nextRef, i := i, j := j })],
         nextRef := b.nextRef + 1 }) := by
  simp only [getCanonicalCell, h]
  rw [setEntry_of_getEntry_none h]

end Canon

/-- **C3.** Cell canonicalization: for every integer pair `(i, j)` and any
canonicalizer state, every call returns the identical cell object (same
allocation reference).  A first call on an absent key allocates a fresh
object and caches it under the string encoding of the pair; the second
call returns exactly that cached object with the board unchanged, a call
on a cached key returns the cached instance without modifying the board,
and after any further sequence of canonicalizer calls the same object is
still returned for `(i, j)`. -/
theorem canonicalize_same_reference (b : Canon.Board) (i j : Int) :
    Canon.getCanonicalCell (Canon.getCanonicalCell b i j).2 i j = Canon.getCanonicalCell b i j ∧
    getEntry (Canon.cellKey i j) (Canon.getCanonicalCell b i j).2.knownCells
      = some (Canon.getCanonicalCell b i j).1 ∧
    (getEntry (Canon.cellKey i j) b.knownCells = none →
      (Canon.getCanonicalCell b i j).1 = { ref := b.nextRef, i := i, j := j } ∧
      (Canon.getCanonicalCell b i j).2.knownCells
        = b.knownCells ++ [(Canon.cellKey i j, (Canon.getCanonicalCell b i j).1)]) ∧
    (∀ c, getEntry (Canon.cellKey i j) b.knownCells = some c →
      Canon.getCanonicalCell b i j = (c, b)) ∧
    (∀ ps : List (Int × Int),
      (Canon.getCanonicalCell (Canon.runCalls (Canon.getCanonicalCell b i j).2 ps) i j).1
        = (Canon.getCanonicalCell b i j).1) := by
  cases hx : getEntry (Canon.cellKey i j) b.knownCells with
  | some c =>
      have h1 := Canon.getCanonicalCell_of_some hx
      have hstored : getEntry (Canon.cellKey i j) (Canon.getCanonicalCell b i j).2.knownCells
          = some (Canon.getCanonicalCell b i j).1 := by
        rw [h1]
        exact hx
      refine ⟨?_, hstored, ?_, ?_, ?_⟩
      · rw [h1]
        exact Canon.getCanonicalCell_of_some hx
      · intro hnone
        exact Option.noConfusion hnone
      · intro c2 hc2
        have hcc := Option.some.inj hc2
        rw [← hcc]
        exact h1
      · intro ps
        have hp := Canon.runCalls_preserves ps _ hstored
        rw [Canon.getCanonicalCell_of_some hp]
  | none =>
      have h1 := Canon.getCanonicalCell_of_none hx
      have hstored : getEntry (Canon.cellKey i j) (Canon.getCanonicalCell b i j).2.knownCells
          = some (Canon.getCanonicalCell b i j).1 := by
        simp only [Canon.getCanonicalCell, hx]
        exact getEntry_setEntry_self _ _ _
      refine ⟨?_, hstored, ?_, ?_, ?_⟩
      · rw [Canon.getCanonicalCell_of_some hstored, h1]
      · intro _
        rw [h1]
        simp [h1]
      · intro c2 hc2
        exact Option.noConfusion hc2
      · intro ps
        have hp := Canon.runCalls_preserves ps _ hstored
        rw [Canon.getCanonicalCell_of_some hp]

/-- Witness for the canonicalization theorem at a concrete empty board
and the pair `(3, -4)`. -/
theorem canonicalize_same_reference_spot :
    (getEntry (Canon.cellKey 3 (-4)) (⟨[], 0⟩ : Canon.Board).knownCells = none →
      (Canon.getCanonicalCell ⟨[], 0⟩ 3 (-4)).1 = { ref := 0, i := 3, j := -4 } ∧
      (Canon.getCanonicalCell ⟨[], 0⟩ 3 (-4)).2.knownCells
        = [] ++ [(Canon.cellKey 3 (-4), (Canon.getCanonicalCell ⟨[], 0⟩ 3 (-4)).1)]) ∧
    Canon.getCanonicalCell (Canon.getCanonicalCell ⟨[], 0⟩ 3 (-4)).2 3 (-4)
      = Canon.getCanonicalCell ⟨[], 0⟩ 3 (-4) :=
  ⟨(canonicalize_same_reference ⟨[], 0⟩ 3 (-4)).2.2.1,
   (canonicalize_same_reference ⟨[], 0⟩ 3 (-4)).1⟩

namespace Geo

theorem pushCoins_spec (cell : Cell) :
    ∀ (n : Nat) (cache : Cache),
      pushCoins cell n cache =
        { coins := cache.coins ++ (List.range n).map
            (fun m => { spawnLocation := cell, serial := cache.serialNumber + m }),
          serialNumber := cache.serialNumber + n,
          location := cache.location } := by
  intro n
  induction n with
  | zero => intro cache; simp [pushCoins]
  | succ n ih =>
      intro cache
      simp only [pushCoins]
      rw [ih]
      simp [List.range_succ_eq_map, List.map_map, Function.comp_def, List.append_assoc,
        Nat.add_comm, Nat.add_left_comm, Nat.add_assoc]

theorem createNewCache_eq (cell : Cell) (n : Nat) :
    createNewCache cell n =
      { coins := origCoins cell n, serialNumber := n, location := cell } := by
  rw [createNewCache, pushCoins_spec]
  simp [origCoins]

theorem origCoins_length (cell : Cell) (n : Nat) : (origCoins cell n).length = n := by
  simp [origCoins]

theorem origCoins_dropLast (cell : Cell) (n : Nat) :
    (origCoins cell (n + 1)).dropLast = origCoins cell n := by
  simp [origCoins, List.range_succ]

theorem origCoins_getLast (cell : Cell) (n : Nat) :
    (origCoins cell (n + 1)).getLast? = some { spawnLocation := cell, serial := n } := by
  simp [origCoins, List.range_succ]

theorem origCoins_nodup (cell : Cell) (n : Nat) : (origCoins cell n).Nodup := by
  refine List.Nodup.map ?_ (List.nodup_range n)
  intro a b hab
  simpa using hab

theorem origCoins_spawnLocation (cell : Cell) (n : Nat) :
    ∀ coin ∈ origCoins cell n, coin.spawnLocation = cell := by
  intro coin hc
  simp [origCoins] at hc
  obtain ⟨m, _, hcoin⟩ := hc
  rw [← hcoin]

theorem origCoins_getElem (cell : Cell) {n m : Nat} (h : m < n) :
    (origCoins cell n)[m]? = some { spawnLocation := cell, serial := m } := by
  simp [origCoins, List.getElem?_map, List.getElem?_range h]

theorem storeM_cons (e : String × List Coin) (rest : List (String × List Coin)) :
    storeM (e :: rest) = (e.2 : Multiset Coin) + storeM rest := by
  simp [storeM]

theorem storeM_append (l1 l2 : List (String × List Coin)) :
    storeM (l1 ++ l2) = storeM l1 + storeM l2 := by
  simp [storeM]

theorem storeM_setEntry_some {st : List (String × List Coin)} {k : String} {cs0 : List Coin}
    (h : getEntry k st = some cs0) (cs : List Coin) :
    storeM (setEntry k cs st) + (cs0 : Multiset Coin) = storeM st + (cs : Multiset Coin) := by
  induction st with
  | nil => simp [getEntry] at h
  | cons e rest ih =>
      by_cases he : e.1 = k
      · simp [getEntry, he] at h
        simp only [setEntry, if_pos he, storeM_cons]
        rw [h]
        simp [add_comm, add_left_comm, add_assoc]
      · simp [getEntry, he] at h
        simp only [setEntry, if_neg he, storeM_cons]
        rw [add_assoc, add_assoc, ih h]

theorem storeM_setEntry_none {st : List (String × List Coin)} {k : String}
    (h : getEntry k st = none) (cs : List Coin) :
    storeM (setEntry k cs st) = storeM st + (cs : Multiset Coin) := by
  rw [setEntry_of_getEntry_none h, storeM_append]
  simp [storeM]

theorem card_storeM (st : List (String × List Coin)) :
    Multiset.card (storeM st) = storeLen st := by
  induction st with
  | nil => simp [storeM, storeLen]
  | cons e rest ih => simp [storeM_cons, storeLen, ih, List.map_cons, List.sum_cons]

theorem card_totalM (s : GameState) :
    Multiset.card (totalM s) = s.playerWallet.length + storeLen s.cacheStates := by
  simp [totalM, card_storeM]

theorem sumSpawn_keys_eq {luck : String → ℚ} {st1 st2 : List (String × List Coin)}
    (h : st1.map Prod.fst = st2.map Prod.fst) : sumSpawn luck st1 = sumSpawn luck st2 := by
  simp [sumSpawn, h]

end Geo

namespace Geo

theorem populateMap_eq (luck : String → ℚ) (s : GameState) :
    populateMap luck s =
      removeInactiveCaches ((cellsNearPoint s.playerPos).map cellToString)
        ((cellsNearPoint s.playerPos).foldl (refreshStep luck) s) := rfl

theorem spawnCacheIfNeeded_frame (luck : String → ℚ) (s : GameState) (c : Cell) :
    (spawnCacheIfNeeded luck s c).playerWallet = s.playerWallet ∧
    (spawnCacheIfNeeded luck s c).movementHistory = s.movementHistory ∧
    (spawnCacheIfNeeded luck s c).playerPos = s.playerPos ∧
    (spawnCacheIfNeeded luck s c).storage = s.storage := by
  unfold spawnCacheIfNeeded
  by_cases h1 : getEntry (cellToString c) s.cacheStates = none
  · by_cases h2 : cellLuck luck c < CACHE_SPAWN_PROBABILITY
    · simp [h1, h2, spawnCache]
    · simp [h1, h2]
  · simp [h1]

theorem restoreCache_frame (s : GameState) (c : Cell) :
    (restoreCache s c).playerWallet = s.playerWallet ∧
    (restoreCache s c).cacheStates = s.cacheStates ∧
    (restoreCache s c).movementHistory = s.movementHistory ∧
    (restoreCache s c).playerPos = s.playerPos ∧
    (restoreCache s c).storage = s.storage := by
  unfold restoreCache
  cases h : getEntry (cellToString c) s.cacheStates <;> simp

theorem restoreCacheIfNeeded_frame (s : GameState) (c : Cell) :
    (restoreCacheIfNeeded s c).playerWallet = s.playerWallet ∧
    (restoreCacheIfNeeded s c).cacheStates = s.cacheStates ∧
    (restoreCacheIfNeeded s c).movementHistory = s.movementHistory ∧
    (restoreCacheIfNeeded s c).playerPos = s.playerPos ∧
    (restoreCacheIfNeeded s c).storage = s.storage := by
  unfold restoreCacheIfNeeded
  by_cases h : (getEntry (cellToString c) s.cacheStates).isSome = true
      ∧ getEntry (cellToString c) s.activeCaches = none
  · simp only [if_pos h]
    exact restoreCache_frame s c
  · simp [h]

theorem refreshStep_frame (luck : String → ℚ) (s : GameState) (c : Cell) :
    (refreshStep luck s c).playerWallet = s.playerWallet ∧
    (refreshStep luck s c).movementHistory = s.movementHistory ∧
    (refreshStep luck s c).playerPos = s.playerPos ∧
    (refreshStep luck s c).storage = s.storage := by
  have h1 := spawnCacheIfNeeded_frame luck s c
  have h2 := restoreCacheIfNeeded_frame (spawnCacheIfNeeded luck s c) c
  exact ⟨h2.1.trans h1.1, h2.2.2.1.trans h1.2.1, h2.2.2.2.1.trans h1.2.2.1,
    h2.2.2.2.2.trans h1.2.2.2⟩

theorem foldl_refresh_frame (luck : String → ℚ) :
    ∀ (cells : List Cell) (s : GameState),
      ((cells.foldl (refreshStep luck) s).playerWallet = s.playerWallet ∧
       (cells.foldl (refreshStep luck) s).movementHistory = s.movementHistory ∧
       (cells.foldl (refreshStep luck) s).playerPos = s.playerPos ∧
       (cells.foldl (refreshStep luck) s).storage = s.storage)
  | [], _ => ⟨rfl, rfl, rfl, rfl⟩
  | c :: cs, s => by
      have h1 := refreshStep_frame luck s c
      have h2 := foldl_refresh_frame luck cs (refreshStep luck s c)
      simp only [List.foldl_cons]
      exact ⟨h2.1.trans h1.1, h2.2.1.trans h1.2.1, h2.2.2.1.trans h1.2.2.1,
        h2.2.2.2.trans h1.2.2.2⟩

theorem populateMap_frame (luck : String → ℚ) (s : GameState) :
    (populateMap luck s).playerWallet = s.playerWallet ∧
    (populateMap luck s).movementHistory = s.movementHistory ∧
    (populateMap luck s).playerPos = s.playerPos ∧
    (populateMap luck s).storage = s.storage := by
  rw [populateMap_eq]
  have h := foldl_refresh_frame luck (cellsNearPoint s.playerPos) s
  simpa [removeInactiveCaches] using h

theorem spawnCacheIfNeeded_entry (luck : String → ℚ) (s : GameState) (c : Cell)
    {k : String} {cs : List Coin} (h : getEntry k s.cacheStates = some cs) :
    getEntry k (spawnCacheIfNeeded luck s c).cacheStates = some cs := by
  unfold spawnCacheIfNeeded
  by_cases h1 : getEntry (cellToString c) s.cacheStates = none
  · by_cases h2 : cellLuck luck c < CACHE_SPAWN_PROBABILITY
    · have hk : k ≠ cellToString c := by
        intro hkk
        rw [hkk, h1] at h
        exact Option.noConfusion h
      simp only [if_pos h1, if_pos h2, spawnCache]
      rw [getEntry_setEntry_ne hk]
      exact h
    · simp [h1, h2, h]
  · simp [h1, h]

theorem refreshStep_entry (luck : String → ℚ) (s : GameState) (c : Cell)
    {k : String} {cs : List Coin} (h : getEntry k s.cacheStates = some cs) :
    getEntry k (refreshStep luck s c).cacheStates = some cs := by
  unfold refreshStep
  rw [(restoreCacheIfNeeded_frame (spawnCacheIfNeeded luck s c) c).2.1]
  exact spawnCacheIfNeeded_entry luck s c h

theorem foldl_refresh_entry (luck : String → ℚ) :
    ∀ (cells : List Cell) (s : GameState) {k : String} {cs : List Coin},
      getEntry k s.cacheStates = some cs →
      getEntry k (cells.foldl (refreshStep luck) s).cacheStates = some cs
  | [], _, _, _, h => h
  | c :: cl, s, _, _, h => by
      simp only [List.foldl_cons]
      exact foldl_refresh_entry luck cl _ (refreshStep_entry luck s c h)

theorem populateMap_entry (luck : String → ℚ) (s : GameState)
    {k : String} {cs : List Coin} (h : getEntry k s.cacheStates = some cs) :
    getEntry k (populateMap luck s).cacheStates = some cs := by
  rw [populateMap_eq]
  simpa [removeInactiveCaches] using foldl_refresh_entry luck (cellsNearPoint s.playerPos) s h

theorem refreshStep_cacheStates_covered (luck : String → ℚ) (s : GameState) (c : Cell)
    (h : cellLuck luck c < CACHE_SPAWN_PROBABILITY →
      (getEntry (cellToString c) s.cacheStates).isSome = true) :
    (refreshStep luck s c).cacheStates = s.cacheStates := by
  unfold refreshStep
  rw [(restoreCacheIfNeeded_frame (spawnCacheIfNeeded luck s c) c).2.1]
  unfold spawnCacheIfNeeded
  by_cases h1 : getEntry (cellToString c) s.cacheStates = none
  · by_cases h2 : cellLuck luck c < CACHE_SPAWN_PROBABILITY
    · rw [h1] at h
      simp at h
      exact absurd h2 (by simp [h])
    · simp [h1, h2]
  · simp [h1]

theorem foldl_refresh_cacheStates_covered (luck : String → ℚ) :
    ∀ (cells : List Cell) (s : GameState),
      (∀ c ∈ cells, cellLuck luck c < CACHE_SPAWN_PROBABILITY →
        (getEntry (cellToString c) s.cacheStates).isSome = true) →
      (cells.foldl (refreshStep luck) s).cacheStates = s.cacheStates
  | [], _, _ => rfl
  | c :: cl, s, h => by
      simp only [List.foldl_cons]
      have hc := refreshStep_cacheStates_covered luck s c (h c (List.mem_cons_self c cl))
      have ih := foldl_refresh_cacheStates_covered luck cl (refreshStep luck s c)
        (by
          intro c2 hc2
          rw [hc]
          exact h c2 (List.mem_cons_of_mem c hc2))
      rw [ih, hc]

theorem populateMap_cacheStates_covered (luck : String → ℚ) (s : GameState)
    (h : ∀ c ∈ cellsNearPoint s.playerPos, cellLuck luck c < CACHE_SPAWN_PROBABILITY →
      (getEntry (cellToString c) s.cacheStates).isSome = true) :
    (populateMap luck s).cacheStates = s.cacheStates := by
  rw [populateMap_eq]
  have hf := foldl_refresh_cacheStates_covered luck (cellsNearPoint s.playerPos) s h
  simpa [removeInactiveCaches] using hf

end Geo

namespace Geo

theorem getLast?_split {α : Type} {l : List α} {a : α} (h : l.getLast? = some a) :
    l.dropLast ++ [a] = l := by
  cases l with
  | nil => simp at h
  | cons b bl =>
      have hne : b :: bl ≠ [] := by simp
      rw [List.getLast?_eq_getLast _ hne] at h
      have h2 := Option.some.inj h
      rw [← h2]
      exact List.dropLast_append_getLast hne

theorem recordM_append (luck : String → ℚ) (l1 l2 : List (String × Cell)) :
    recordM luck (l1 ++ l2) = recordM luck l1 + recordM luck l2 := by
  simp [recordM]

theorem inv_initial (luck : String → ℚ) : Inv luck initialState := by
  refine ⟨by simp [initialState], by simp [initialState], by simp [initialState],
    [], by simp [initialState], by simp, ?_⟩
  simp [initialState, totalM, storeM, recordM]

theorem inv_saveGameState (luck : String → ℚ) {s : GameState} (h : Inv luck s) :
    Inv luck (saveGameState s) := by
  obtain ⟨hs1, hs2, hs3, sp, hp1, hp2, hp3⟩ := h
  exact ⟨hs1, hs2, hs3, sp, hp1, hp2, by simpa [saveGameState, totalM] using hp3⟩

theorem spawnCache_eq (luck : String → ℚ) (s : GameState) (c : Cell) :
    spawnCache luck s c =
      { s with
        cacheStates := setEntry (cellToString c)
          (origCoins c (spawnCount luck (cellToString c))) s.cacheStates,
        activeCaches := setEntry (cellToString c)
          { coins := origCoins c (spawnCount luck (cellToString c)),
            serialNumber := spawnCount luck (cellToString c), location := c }
          s.activeCaches } := by
  unfold spawnCache
  simp only [createNewCache_eq]

theorem inv_spawnCacheIfNeeded (luck : String → ℚ) {s : GameState} (h : Inv luck s) (c : Cell) :
    Inv luck (spawnCacheIfNeeded luck s c) := by
  unfold spawnCacheIfNeeded
  by_cases h1 : getEntry (cellToString c) s.cacheStates = none
  · by_cases h2 : cellLuck luck c < CACHE_SPAWN_PROBABILITY
    · simp only [if_pos h1, if_pos h2]
      obtain ⟨hs1, hs2, hs3, sp, hp1, hp2, hp3⟩ := h
      have hknotstore : cellToString c ∉ s.cacheStates.map Prod.fst :=
        getEntry_eq_none_iff.1 h1
      have hactnone : getEntry (cellToString c) s.activeCaches = none := by
        rw [getEntry_eq_none_iff]
        intro hmem
        obtain ⟨e, he, hek⟩ := List.mem_map.1 hmem
        have hse := hs3 e he
        rw [hek, h1] at hse
        exact Option.noConfusion hse
      have hknotact : cellToString c ∉ s.activeCaches.map Prod.fst :=
        getEntry_eq_none_iff.1 hactnone
      rw [spawnCache_eq]
      refine ⟨?_, ?_, ?_, sp ++ [(cellToString c, c)], ?_, ?_, ?_⟩
      · show (List.map Prod.fst (setEntry (cellToString c) _ s.cacheStates)).Nodup
        rw [keys_setEntry_of_none h1]
        simp [List.nodup_append, hs1, hknotstore]
      · show (List.map Prod.fst (setEntry (cellToString c) _ s.activeCaches)).Nodup
        rw [keys_setEntry_of_none hactnone]
        simp [List.nodup_append, hs2, hknotact]
      · intro e he
        rcases mem_setEntry hs2 he with heq | hboth
        · rw [heq]
          exact getEntry_setEntry_self _ _ _
        · show getEntry e.1 (setEntry (cellToString c) _ s.cacheStates) = some e.2.coins
          rw [getEntry_setEntry_ne hboth.2]
          exact hs3 e hboth.1
      · show _ = List.map Prod.fst (setEntry (cellToString c) _ s.cacheStates)
        rw [keys_setEntry_of_none h1]
        simp [hp1]
      · intro e he
        rcases List.mem_append.1 he with hm | hm
        · exact hp2 e hm
        · simp at hm
          rw [hm]
      · show totalM _ = _
        rw [recordM_append]
        have hst : storeM (setEntry (cellToString c)
            (origCoins c (spawnCount luck (cellToString c))) s.cacheStates)
            = storeM s.cacheStates
              + ((origCoins c (spawnCount luck (cellToString c)) : List Coin) : Multiset Coin) :=
          storeM_setEntry_none h1 _
        simp only [totalM] at hp3 ⊢
        rw [hst, ← add_assoc, hp3]
        simp [recordM]
    · simp only [if_pos h1, if_neg h2]
      exact h
  · simp only [if_neg h1]
    exact h

theorem inv_restoreCacheIfNeeded (luck : String → ℚ) {s : GameState} (h : Inv luck s) (c : Cell) :
    Inv luck (restoreCacheIfNeeded s c) := by
  unfold restoreCacheIfNeeded
  by_cases hcond : (getEntry (cellToString c) s.cacheStates).isSome = true
      ∧ getEntry (cellToString c) s.activeCaches = none
  · simp only [if_pos hcond]
    unfold restoreCache
    cases hst : getEntry (cellToString c) s.cacheStates with
    | none => exact h
    | some saved =>
        obtain ⟨hs1, hs2, hs3, sp, hp1, hp2, hp3⟩ := h
        have hknotact : cellToString c ∉ s.activeCaches.map Prod.fst :=
          getEntry_eq_none_iff.1 hcond.2
        refine ⟨hs1, ?_, ?_, sp, hp1, hp2, ?_⟩
        · show (List.map Prod.fst (setEntry (cellToString c) _ s.activeCaches)).Nodup
          rw [keys_setEntry_of_none hcond.2]
          simp [List.nodup_append, hs2, hknotact]
        · intro e he
          rcases mem_setEntry hs2 he with heq | hboth
          · rw [heq]
            exact hst
          · exact hs3 e hboth.1
        · simpa [totalM] using hp3
  · simp only [if_neg hcond]
    exact h

theorem inv_removeInactiveCaches (luck : String → ℚ) {s : GameState} (h : Inv luck s)
    (visible : List String) : Inv luck (removeInactiveCaches visible s) := by
  obtain ⟨hs1, hs2, hs3, sp, hp1, hp2, hp3⟩ := h
  refine ⟨hs1, ?_, ?_, sp, hp1, hp2, ?_⟩
  · exact hs2.sublist (List.Sublist.map Prod.fst (List.filter_sublist s.activeCaches))
  · intro e he
    exact hs3 e (List.mem_of_mem_filter he)
  · simpa [totalM] using hp3

theorem inv_refreshStep (luck : String → ℚ) {s : GameState} (h : Inv luck s) (c : Cell) :
    Inv luck (refreshStep luck s c) :=
  inv_restoreCacheIfNeeded luck (inv_spawnCacheIfNeeded luck h c) c

theorem inv_foldl_refresh (luck : String → ℚ) :
    ∀ (cells : List Cell) {s : GameState}, Inv luck s →
      Inv luck (cells.foldl (refreshStep luck) s)
  | [], _, h => h
  | c :: cl, s, h => by
      simp only [List.foldl_cons]
      exact inv_foldl_refresh luck cl (inv_refreshStep luck h c)

theorem inv_populateMap (luck : String → ℚ) {s : GameState} (h : Inv luck s) :
    Inv luck (populateMap luck s) := by
  rw [populateMap_eq]
  exact inv_removeInactiveCaches luck (inv_foldl_refresh luck _ h) _

theorem inv_movePlayer (luck : String → ℚ) {s : GameState} (h : Inv luck s)
    (dLat dLng : ℚ) : Inv luck (movePlayer luck s dLat dLng) := by
  unfold movePlayer
  apply inv_populateMap
  obtain ⟨hs1, hs2, hs3, sp, hp1, hp2, hp3⟩ := h
  exact ⟨hs1, hs2, hs3, sp, hp1, hp2, by simpa [totalM] using hp3⟩

theorem collect_cases (s : GameState) (k : String) :
    (getEntry k s.activeCaches = none ∧ collect s k = s) ∨
    (∃ cache, getEntry k s.activeCaches = some cache ∧ cache.coins.getLast? = none ∧
      collect s k = s) ∨
    (∃ cache coin, getEntry k s.activeCaches = some cache ∧
      cache.coins.getLast? = some coin ∧
      collect s k = saveGameState
        { s with
          activeCaches := setEntry k { cache with coins := cache.coins.dropLast }
            s.activeCaches,
          playerWallet := s.playerWallet ++ [coin],
          cacheStates := setEntry k cache.coins.dropLast s.cacheStates }) := by
  unfold collect
  split
  · rename_i ha
    exact Or.inl ⟨ha, rfl⟩
  · rename_i cache ha
    split
    · rename_i hl
      exact Or.inr (Or.inl ⟨cache, ha, hl, rfl⟩)
    · rename_i coin hl
      exact Or.inr (Or.inr ⟨cache, coin, ha, hl, rfl⟩)

theorem deposit_cases (s : GameState) (k : String) :
    (getEntry k s.activeCaches = none ∧ deposit s k = s) ∨
    (∃ cache, getEntry k s.activeCaches = some cache ∧ s.playerWallet.getLast? = none ∧
      deposit s k = s) ∨
    (∃ cache coin, getEntry k s.activeCaches = some cache ∧
      s.playerWallet.getLast? = some coin ∧
      deposit s k = saveGameState
        { s with
          activeCaches := setEntry k { cache with coins := cache.coins ++ [coin] }
            s.activeCaches,
          playerWallet := s.playerWallet.dropLast,
          cacheStates := setEntry k (cache.coins ++ [coin]) s.cacheStates }) := by
  unfold deposit
  split
  · rename_i ha
    exact Or.inl ⟨ha, rfl⟩
  · rename_i cache ha
    split
    · rename_i hl
      exact Or.inr (Or.inl ⟨cache, ha, hl, rfl⟩)
    · rename_i coin hl
      exact Or.inr (Or.inr ⟨cache, coin, ha, hl, rfl⟩)

end Geo

namespace Geo

theorem collect_sync {luck : String → ℚ} {s : GameState} (h : Inv luck s) {k : String}
    {cache : Cache} (ha : getEntry k s.activeCaches = some cache) :
    getEntry k s.cacheStates = some cache.coins := by
  have hmem := mem_of_getEntry_some ha
  simpa using h.sync (k, cache) hmem

theorem collect_totalM (luck : String → ℚ) {s : GameState} (h : Inv luck s) (k : String) :
    totalM (collect s k) = totalM s := by
  rcases collect_cases s k with ⟨ha, heq⟩ | ⟨cache, ha, hl, heq⟩ | ⟨cache, coin, ha, hl, heq⟩
  · rw [heq]
  · rw [heq]
  · have hsync := collect_sync h ha
    have hsplit : cache.coins.dropLast ++ [coin] = cache.coins := getLast?_split hl
    have hcoinC : ((cache.coins : List Coin) : Multiset Coin)
        = ((cache.coins.dropLast : List Coin) : Multiset Coin)
          + (([coin] : List Coin) : Multiset Coin) := by
      rw [Multiset.coe_add, hsplit]
    have hst := storeM_setEntry_some hsync cache.coins.dropLast
    rw [hcoinC] at hst
    have h3 : storeM (setEntry k cache.coins.dropLast s.cacheStates)
          + (([coin] : List Coin) : Multiset Coin)
          + ((cache.coins.dropLast : List Coin) : Multiset Coin)
        = storeM s.cacheStates + ((cache.coins.dropLast : List Coin) : Multiset Coin) := by
      rw [add_assoc, add_comm (([coin] : List Coin) : Multiset Coin)
        ((cache.coins.dropLast : List Coin) : Multiset Coin)]
      exact hst
    have hX := add_right_cancel h3
    rw [heq]
    show totalM _ = totalM s
    simp only [saveGameState, totalM]
    rw [← Multiset.coe_add, add_assoc, add_comm (([coin] : List Coin) : Multiset Coin)
      (storeM (setEntry k cache.coins.dropLast s.cacheStates)), hX]

theorem deposit_totalM (luck : String → ℚ) {s : GameState} (h : Inv luck s) (k : String) :
    totalM (deposit s k) = totalM s := by
  rcases deposit_cases s k with ⟨ha, heq⟩ | ⟨cache, ha, hl, heq⟩ | ⟨cache, coin, ha, hl, heq⟩
  · rw [heq]
  · rw [heq]
  · have hsync := collect_sync h ha
    have hsplit : s.playerWallet.dropLast ++ [coin] = s.playerWallet := getLast?_split hl
    have hwallet : ((s.playerWallet : List Coin) : Multiset Coin)
        = ((s.playerWallet.dropLast : List Coin) : Multiset Coin)
          + (([coin] : List Coin) : Multiset Coin) := by
      rw [Multiset.coe_add, hsplit]
    have hst := storeM_setEntry_some hsync (cache.coins ++ [coin])
    have hcoe : ((cache.coins ++ [coin] : List Coin) : Multiset Coin)
        = ((cache.coins : List Coin) : Multiset Coin)
          + (([coin] : List Coin) : Multiset Coin) := (Multiset.coe_add _ _).symm
    rw [hcoe, add_comm ((cache.coins : List Coin) : Multiset Coin)
      (([coin] : List Coin) : Multiset Coin), ← add_assoc] at hst
    have hX := add_right_cancel hst
    rw [heq]
    show totalM _ = totalM s
    simp only [saveGameState, totalM]
    rw [hX, hwallet, add_comm (storeM s.cacheStates) (([coin] : List Coin) : Multiset Coin),
      ← add_assoc]

theorem inv_collect (luck : String → ℚ) {s : GameState} (h : Inv luck s) (k : String) :
    Inv luck (collect s k) := by
  have ht := collect_totalM luck h k
  rcases collect_cases s k with ⟨ha, heq⟩ | ⟨cache, ha, hl, heq⟩ | ⟨cache, coin, ha, hl, heq⟩
  · rw [heq]; exact h
  · rw [heq]; exact h
  · have hsync := collect_sync h ha
    obtain ⟨hs1, hs2, hs3, sp, hp1, hp2, hp3⟩ := h
    rw [heq] at ht ⊢
    refine ⟨?_, ?_, ?_, sp, ?_, hp2, ?_⟩
    · show (List.map Prod.fst (setEntry k cache.coins.dropLast s.cacheStates)).Nodup
      rw [keys_setEntry_of_some hsync]
      exact hs1
    · show (List.map Prod.fst (setEntry k _ s.activeCaches)).Nodup
      rw [keys_setEntry_of_some ha]
      exact hs2
    · intro e he
      rcases mem_setEntry hs2 he with heqe | hboth
      · rw [heqe]
        exact getEntry_setEntry_self _ _ _
      · show getEntry e.1 (setEntry k _ s.cacheStates) = some e.2.coins
        rw [getEntry_setEntry_ne hboth.2]
        exact hs3 e hboth.1
    · show sp.map Prod.fst = List.map Prod.fst (setEntry k cache.coins.dropLast s.cacheStates)
      rw [keys_setEntry_of_some hsync]
      exact hp1
    · rw [ht]
      exact hp3

theorem inv_deposit (luck : String → ℚ) {s : GameState} (h : Inv luck s) (k : String) :
    Inv luck (deposit s k) := by
  have ht := deposit_totalM luck h k
  rcases deposit_cases s k with ⟨ha, heq⟩ | ⟨cache, ha, hl, heq⟩ | ⟨cache, coin, ha, hl, heq⟩
  · rw [heq]; exact h
  · rw [heq]; exact h
  · have hsync := collect_sync h ha
    obtain ⟨hs1, hs2, hs3, sp, hp1, hp2, hp3⟩ := h
    rw [heq] at ht ⊢
    refine ⟨?_, ?_, ?_, sp, ?_, hp2, ?_⟩
    · show (List.map Prod.fst (setEntry k (cache.coins ++ [coin]) s.cacheStates)).Nodup
      rw [keys_setEntry_of_some hsync]
      exact hs1
    · show (List.map Prod.fst (setEntry k _ s.activeCaches)).Nodup
      rw [keys_setEntry_of_some ha]
      exact hs2
    · intro e he
      rcases mem_setEntry hs2 he with heqe | hboth
      · rw [heqe]
        exact getEntry_setEntry_self _ _ _
      · show getEntry e.1 (setEntry k _ s.cacheStates) = some e.2.coins
        rw [getEntry_setEntry_ne hboth.2]
        exact hs3 e hboth.1
    · show sp.map Prod.fst = List.map Prod.fst (setEntry k (cache.coins ++ [coin]) s.cacheStates)
      rw [keys_setEntry_of_some hsync]
      exact hp1
    · rw [ht]
      exact hp3

theorem reach_inv (luck : String → ℚ) {s : GameState} (h : Reach luck s) : Inv luck s := by
  induction h with
  | init => exact inv_initial luck
  | move s dLat dLng _ ih => exact inv_movePlayer luck ih dLat dLng
  | collectEv s k _ ih => exact inv_collect luck ih k
  | depositEv s k _ ih => exact inv_deposit luck ih k

theorem sum_map_coe {α : Type} (f : α → List Coin) (l : List α) :
    (l.map (fun x => ((f x : List Coin) : Multiset Coin))).sum
      = ((l.flatMap f : List Coin) : Multiset Coin) := by
  induction l with
  | nil => simp
  | cons x xs ih =>
      rw [List.map_cons, List.sum_cons, List.flatMap_cons, ih]
      exact (Multiset.coe_add (f x) (xs.flatMap f)).symm

theorem recordM_nodup (luck : String → ℚ) {sp : List (String × Cell)}
    (hkeys : (sp.map Prod.fst).Nodup) (hcells : ∀ e ∈ sp, cellToString e.2 = e.1) :
    (recordM luck sp).Nodup := by
  rw [recordM, sum_map_coe, Multiset.coe_nodup, List.nodup_flatMap]
  constructor
  · intro e _
    exact origCoins_nodup e.2 _
  · have hpair : sp.Pairwise (fun a b => a.1 ≠ b.1) := by
      rw [List.Nodup, List.pairwise_map] at hkeys
      exact hkeys
    apply List.Pairwise.imp_of_mem ?_ hpair
    intro a b hma hmb hne coin hca hcb
    have h1 := origCoins_spawnLocation a.2 _ coin hca
    have h2 := origCoins_spawnLocation b.2 _ coin hcb
    apply hne
    rw [← hcells a hma, ← hcells b hmb, ← h1, ← h2]

theorem recordM_card (luck : String → ℚ) (sp : List (String × Cell)) :
    Multiset.card (recordM luck sp) = ((sp.map Prod.fst).map (spawnCount luck)).sum := by
  induction sp with
  | nil => simp [recordM]
  | cons e rest ih =>
      simp only [recordM, List.map_cons, List.sum_cons] at ih ⊢
      rw [Multiset.card_add, ih]
      simp [origCoins_length]

end Geo

namespace Geo

theorem restoreCache_of_some {s : GameState} {cell : Cell} {saved : List Coin}
    (h : getEntry (cellToString cell) s.cacheStates = some saved) :
    restoreCache s cell = { s with activeCaches := (setEntry (cellToString cell)
      ({ location := cell, coins := saved, serialNumber := saved.length }) s.activeCaches) } := by
  unfold restoreCache
  rw [h]

theorem restoreCacheIfNeeded_of {s : GameState} {cell : Cell} {saved : List Coin}
    (hst : getEntry (cellToString cell) s.cacheStates = some saved)
    (hact : getEntry (cellToString cell) s.activeCaches = none) :
    restoreCacheIfNeeded s cell = { s with activeCaches := (setEntry (cellToString cell)
      ({ location := cell, coins := saved, serialNumber := saved.length }) s.activeCaches) } := by
  unfold restoreCacheIfNeeded
  rw [if_pos ⟨by rw [hst]; rfl, hact⟩]
  exact restoreCache_of_some hst

theorem getEntry_filter_not_visible {α : Type} {visible : List String} {k : String}
    (h : ¬ visible.contains k = true) (l : List (String × α)) :
    getEntry k (l.filter (fun e => visible.contains e.1)) = none := by
  rw [getEntry_eq_none_iff]
  intro hmem
  obtain ⟨e, he, hek⟩ := List.mem_map.1 hmem
  have hpass := List.of_mem_filter he
  rw [hek] at hpass
  exact h hpass

end Geo

/-- **C1.** Conservation of coins: in any session state reachable by
movement, collect, and deposit events from a fresh session, the combined
coin multiset (wallet plus every cache-state store entry, rendered or
not) is duplicate-free — no coin is duplicated, lost, or in two
containers at once — its size is exactly `card(wallet) + sum of the
store entry sizes`, that size equals the total number of coins ever
spawned (each store entry is created exactly once, holding `spawnCount`
coins for its key), and any further collect or deposit operation leaves
the combined multiset unchanged. -/
theorem conservation_of_coins (luck : String → ℚ) (s : Geo.GameState)
    (h : Geo.Reach luck s) :
    (Geo.totalM s).Nodup ∧
    Multiset.card (Geo.totalM s)
      = s.playerWallet.length + Geo.storeLen s.cacheStates ∧
    Multiset.card (Geo.totalM s) = Geo.sumSpawn luck s.cacheStates ∧
    (∀ k, Geo.totalM (Geo.collect s k) = Geo.totalM s) ∧
    (∀ k, Geo.totalM (Geo.deposit s k) = Geo.totalM s) := by
  have hinv := Geo.reach_inv luck h
  have hinv2 := hinv
  obtain ⟨hs1, hs2, hs3, sp, hp1, hp2, hp3⟩ := hinv2
  have hkeysnd : (sp.map Prod.fst).Nodup := by rw [hp1]; exact hs1
  refine ⟨?_, Geo.card_totalM s, ?_, ?_, ?_⟩
  · rw [hp3]
    exact Geo.recordM_nodup luck hkeysnd hp2
  · rw [hp3, Geo.recordM_card, Geo.sumSpawn, hp1]
  · intro k
    exact Geo.collect_totalM luck hinv k
  · intro k
    exact Geo.deposit_totalM luck hinv k

/-- Witness for coin conservation at the concrete initial state with a
concrete luck function. -/
theorem conservation_of_coins_spot :
    (Geo.totalM Geo.initialState).Nodup ∧
    Multiset.card (Geo.totalM Geo.initialState)
      = Geo.initialState.playerWallet.length + Geo.storeLen Geo.initialState.cacheStates ∧
    Multiset.card (Geo.totalM Geo.initialState)
      = Geo.sumSpawn (fun _ => (1 : ℚ) / 2) Geo.initialState.cacheStates ∧
    (∀ k, Geo.totalM (Geo.collect Geo.initialState k) = Geo.totalM Geo.initialState) ∧
    (∀ k, Geo.totalM (Geo.deposit Geo.initialState k) = Geo.totalM Geo.initialState) :=
  conservation_of_coins (fun _ => (1 : ℚ) / 2) Geo.initialState Geo.Reach.init

/-- **C2.** Memento round-trip: spawn a cache with `N = spawnCount` coins
at a cell (`N > 0`), collect one coin, evict the rendering by a
visibility pass whose visible set does not contain the cell, then
restore it by re-entering visibility.  The rendering is really gone
after the eviction, and the restored cache holds exactly `N - 1` coins,
the same serials in the same order as immediately after the collect
(serials `0 .. N-2` in spawn order), not `N`. -/
theorem memento_round_trip (luck : String → ℚ) (s : Geo.GameState) (cell : Geo.Cell)
    (visible : List String)
    (hn : 0 < Geo.spawnCount luck (Geo.cellToString cell))
    (hvis : ¬ visible.contains (Geo.cellToString cell) = true) :
    ∃ cacheAfterCollect cacheRestored : Geo.Cache,
      getEntry (Geo.cellToString cell)
          (Geo.collect (Geo.spawnCache luck s cell) (Geo.cellToString cell)).activeCaches
        = some cacheAfterCollect ∧
      getEntry (Geo.cellToString cell)
          (Geo.removeInactiveCaches visible
            (Geo.collect (Geo.spawnCache luck s cell) (Geo.cellToString cell))).activeCaches
        = none ∧
      getEntry (Geo.cellToString cell)
          (Geo.restoreCacheIfNeeded
            (Geo.removeInactiveCaches visible
              (Geo.collect (Geo.spawnCache luck s cell) (Geo.cellToString cell)))
            cell).activeCaches
        = some cacheRestored ∧
      cacheRestored.coins = cacheAfterCollect.coins ∧
      cacheRestored.coins
        = Geo.origCoins cell (Geo.spawnCount luck (Geo.cellToString cell) - 1) ∧
      cacheRestored.coins.length = Geo.spawnCount luck (Geo.cellToString cell) - 1 ∧
      ¬ cacheRestored.coins.length = Geo.spawnCount luck (Geo.cellToString cell) := by
  obtain ⟨m, hm⟩ : ∃ m, Geo.spawnCount luck (Geo.cellToString cell) = m + 1 :=
    ⟨Geo.spawnCount luck (Geo.cellToString cell) - 1, (Nat.succ_pred_eq_of_pos hn).symm⟩
  have hs1a : getEntry (Geo.cellToString cell) (Geo.spawnCache luck s cell).activeCaches
      = some { coins := Geo.origCoins cell (Geo.spawnCount luck (Geo.cellToString cell)),
               serialNumber := Geo.spawnCount luck (Geo.cellToString cell),
               location := cell } := by
    rw [Geo.spawnCache_eq]
    exact getEntry_setEntry_self _ _ _
  have hlast : (Geo.origCoins cell (Geo.spawnCount luck (Geo.cellToString cell))).getLast?
      = some { spawnLocation := cell, serial := m } := by
    rw [hm]
    exact Geo.origCoins_getLast cell m
  have hdrop : (Geo.origCoins cell (Geo.spawnCount luck (Geo.cellToString cell))).dropLast
      = Geo.origCoins cell m := by
    rw [hm]
    exact Geo.origCoins_dropLast cell m
  rcases Geo.collect_cases (Geo.spawnCache luck s cell) (Geo.cellToString cell)
    with ⟨ha, _⟩ | ⟨cache, ha, hl, _⟩ | ⟨cache, coin, ha, hl, heq⟩
  · rw [hs1a] at ha
    exact Option.noConfusion ha
  · rw [hs1a] at ha
    have hc := Option.some.inj ha
    rw [← hc] at hl
    rw [hlast] at hl
    exact Option.noConfusion hl
  · rw [hs1a] at ha
    have hc := Option.some.inj ha
    have ha2 : getEntry (Geo.cellToString cell)
        (Geo.collect (Geo.spawnCache luck s cell) (Geo.cellToString cell)).activeCaches
        = some { coins := Geo.origCoins cell m,
                 serialNumber := Geo.spawnCount luck (Geo.cellToString cell),
                 location := cell } := by
      rw [heq]
      show getEntry _ (setEntry _ _ _) = _
      rw [← hc, getEntry_setEntry_self]
      rw [hdrop]
    have hst2 : getEntry (Geo.cellToString cell)
        (Geo.collect (Geo.spawnCache luck s cell) (Geo.cellToString cell)).cacheStates
        = some (Geo.origCoins cell m) := by
      rw [heq]
      show getEntry _ (setEntry _ _ _) = _
      rw [← hc, getEntry_setEntry_self]
      rw [hdrop]
    have hact3 : getEntry (Geo.cellToString cell)
        (Geo.removeInactiveCaches visible
          (Geo.collect (Geo.spawnCache luck s cell) (Geo.cellToString cell))).activeCaches
        = none := Geo.getEntry_filter_not_visible hvis _
    have hst3 : getEntry (Geo.cellToString cell)
        (Geo.removeInactiveCaches visible
          (Geo.collect (Geo.spawnCache luck s cell) (Geo.cellToString cell))).cacheStates
        = some (Geo.origCoins cell m) := hst2
    have hres := Geo.restoreCacheIfNeeded_of hst3 hact3
    refine ⟨{ coins := Geo.origCoins cell m,
              serialNumber := Geo.spawnCount luck (Geo.cellToString cell),
              location := cell },
            { location := cell, coins := Geo.origCoins cell m,
              serialNumber := (Geo.origCoins cell m).length },
            ha2, hact3, ?_, rfl, ?_, ?_, ?_⟩
    · rw [hres]
      exact getEntry_setEntry_self _ _ _
    · show Geo.origCoins cell m = Geo.origCoins cell (Geo.spawnCount luck (Geo.cellToString cell) - 1)
      rw [hm]
      simp
    · show (Geo.origCoins cell m).length = Geo.spawnCount luck (Geo.cellToString cell) - 1
      rw [Geo.origCoins_length, hm]
      simp
    · show ¬ (Geo.origCoins cell m).length = Geo.spawnCount luck (Geo.cellToString cell)
      rw [Geo.origCoins_length, hm]
      omega

/-- Witness for the memento round-trip at a concrete cell with a luck
function giving five coins. -/
theorem memento_round_trip_spot :
    0 < Geo.spawnCount (fun _ => (1 : ℚ) / 20) (Geo.cellToString ⟨0, 0⟩) ∧
    ∃ cacheAfterCollect cacheRestored : Geo.Cache,
      getEntry (Geo.cellToString ⟨0, 0⟩)
          (Geo.collect (Geo.spawnCache (fun _ => (1 : ℚ) / 20) Geo.initialState ⟨0, 0⟩)
            (Geo.cellToString ⟨0, 0⟩)).activeCaches
        = some cacheAfterCollect ∧
      getEntry (Geo.cellToString ⟨0, 0⟩)
          (Geo.removeInactiveCaches []
            (Geo.collect (Geo.spawnCache (fun _ => (1 : ℚ) / 20) Geo.initialState ⟨0, 0⟩)
              (Geo.cellToString ⟨0, 0⟩))).activeCaches
        = none ∧
      getEntry (Geo.cellToString ⟨0, 0⟩)
          (Geo.restoreCacheIfNeeded
            (Geo.removeInactiveCaches []
              (Geo.collect (Geo.spawnCache (fun _ => (1 : ℚ) / 20) Geo.initialState ⟨0, 0⟩)
                (Geo.cellToString ⟨0, 0⟩)))
            ⟨0, 0⟩).activeCaches
        = some cacheRestored ∧
      cacheRestored.coins = cacheAfterCollect.coins ∧
      cacheRestored.coins
        = Geo.origCoins ⟨0, 0⟩ (Geo.spawnCount (fun _ => (1 : ℚ) / 20) (Geo.cellToString ⟨0, 0⟩) - 1) ∧
      cacheRestored.coins.length
        = Geo.spawnCount (fun _ => (1 : ℚ) / 20) (Geo.cellToString ⟨0, 0⟩) - 1 ∧
      ¬ cacheRestored.coins.length = Geo.spawnCount (fun _ => (1 : ℚ) / 20) (Geo.cellToString ⟨0, 0⟩) :=
  ⟨by simp only [Geo.spawnCount]; norm_num,
   memento_round_trip (fun _ => (1 : ℚ) / 20) Geo.initialState ⟨0, 0⟩ []
     (by simp only [Geo.spawnCount]; norm_num) (by simp)⟩


namespace Geo

theorem refreshStep_isSome_after (luck : String → ℚ) (s : GameState) (c : Cell)
    (h : cellLuck luck c < CACHE_SPAWN_PROBABILITY) :
    (getEntry (cellToString c) (refreshStep luck s c).cacheStates).isSome = true := by
  unfold refreshStep
  rw [(restoreCacheIfNeeded_frame _ _).2.1]
  unfold spawnCacheIfNeeded
  by_cases h1 : getEntry (cellToString c) s.cacheStates = none
  · rw [if_pos h1, if_pos h, spawnCache_eq]
    show (getEntry _ (setEntry _ _ _)).isSome = true
    rw [getEntry_setEntry_self]
    rfl
  · rw [if_neg h1]
    cases hx : getEntry (cellToString c) s.cacheStates with
    | none => exact absurd hx h1
    | some v => rfl

theorem foldl_refresh_isSome (luck : String → ℚ) :
    ∀ (cells : List Cell) (s : GameState) (c : Cell), c ∈ cells →
      cellLuck luck c < CACHE_SPAWN_PROBABILITY →
      (getEntry (cellToString c) ((cells.foldl (refreshStep luck) s)).cacheStates).isSome
        = true
  | [], _, _, hmem, _ => absurd hmem (List.not_mem_nil _)
  | c2 :: cl, s, c, hmem, hluck => by
      simp only [List.foldl_cons]
      rcases List.mem_cons.1 hmem with heq | htail
      · subst heq
        have h1 := refreshStep_isSome_after luck s c hluck
        cases hx : getEntry (cellToString c) (refreshStep luck s c).cacheStates with
        | none =>
            rw [hx] at h1
            simp at h1
        | some cs =>
            rw [foldl_refresh_entry luck cl _ hx]
            rfl
      · exact foldl_refresh_isSome luck cl _ c htail hluck

theorem populateMap_isSome (luck : String → ℚ) (s : GameState) (c : Cell)
    (hmem : c ∈ cellsNearPoint s.playerPos)
    (hluck : cellLuck luck c < CACHE_SPAWN_PROBABILITY) :
    (getEntry (cellToString c) (populateMap luck s).cacheStates).isSome = true := by
  rw [populateMap_eq]
  have h := foldl_refresh_isSome luck (cellsNearPoint s.playerPos) s c hmem hluck
  simpa [removeInactiveCaches] using h

end Geo

/-- **C4 counterexample.** Save-then-load does not reproduce the store
exactly in every state: loading re-runs the visibility refresh, which
can spawn fresh store entries.  Concretely, with an always-lucky luck
function and a session at (0, 0) whose store is empty and whose window
was never refreshed (as after a confirmed reset in a fresh session, which
saves before its final refresh), the loaded state holds a store entry the
saved snapshot does not have. -/
theorem persistence_round_trip_cex :
    ∃ t : Geo.GameState,
      Geo.loadGameState (fun _ => (0 : ℚ))
        (Geo.saveGameState
          { Geo.initialState with playerPos := ⟨0, 0⟩, movementHistory := [⟨0, 0⟩] })
        = Except.ok t ∧
      ¬ t.cacheStates
        = ({ Geo.initialState with
             playerPos := ⟨0, 0⟩, movementHistory := [⟨0, 0⟩] } : Geo.GameState).cacheStates := by
  have hlast : ([⟨0, 0⟩] : List Geo.LatLng).getLast? = some ⟨0, 0⟩ := rfl
  have hload : Geo.loadGameState (fun _ => (0 : ℚ))
      (Geo.saveGameState
        { Geo.initialState with playerPos := ⟨0, 0⟩, movementHistory := [⟨0, 0⟩] })
      = Except.ok (Geo.populateMap (fun _ => (0 : ℚ))
          { Geo.saveGameState
              { Geo.initialState with playerPos := ⟨0, 0⟩, movementHistory := [⟨0, 0⟩] }
            with playerPos := ⟨0, 0⟩ }) := by
    simp only [Geo.loadGameState, Geo.saveGameState]
    rw [hlast]
  refine ⟨_, hload, ?_⟩
  have hmem : (⟨-8, -8⟩ : Geo.Cell) ∈ Geo.cellsNearPoint ⟨0, 0⟩ := by
    unfold Geo.cellsNearPoint
    apply List.mem_flatMap.2
    refine ⟨0, List.mem_range.2
      ((by norm_num [Geo.NEIGHBORHOOD_SIZE]) : (0 : Nat) < 2 * Geo.NEIGHBORHOOD_SIZE + 1), ?_⟩
    apply List.mem_map.2
    refine ⟨0, List.mem_range.2
      ((by norm_num [Geo.NEIGHBORHOOD_SIZE]) : (0 : Nat) < 2 * Geo.NEIGHBORHOOD_SIZE + 1), ?_⟩
    simp only [Geo.NEIGHBORHOOD_SIZE, Geo.TILE_DEGREES, Geo.Cell.mk.injEq]
    norm_num
  have hsome := Geo.populateMap_isSome (fun _ => (0 : ℚ))
    { Geo.saveGameState
        { Geo.initialState with playerPos := ⟨0, 0⟩, movementHistory := [⟨0, 0⟩] }
      with playerPos := ⟨0, 0⟩ }
    ⟨-8, -8⟩ hmem (by norm_num [Geo.cellLuck, Geo.CACHE_SPAWN_PROBABILITY])
  intro hcontra
  rw [hcontra] at hsome
  simp [getEntry, Geo.initialState] at hsome


/-- **C4.** Persistence round-trip: from any state whose movement history
is non-empty and whose visibility window at the last history entry has
already been refreshed (every lucky visible cell has a store entry,
which holds for every state the game saves from), saving and then
loading succeeds and reproduces the wallet (same coins, same order),
every cache-state entry (same keys, same coin sequences), and the
movement history (same points) exactly; after the load the player's
position is the last movement-history entry. -/
theorem persistence_round_trip (luck : String → ℚ) (s : Geo.GameState)
    (h1 : s.movementHistory ≠ [])
    (h2 : ∀ c ∈ Geo.cellsNearPoint (s.movementHistory.getLast h1),
      Geo.cellLuck luck c < Geo.CACHE_SPAWN_PROBABILITY →
      (getEntry (Geo.cellToString c) s.cacheStates).isSome = true) :
    ∃ t : Geo.GameState,
      Geo.loadGameState luck (Geo.saveGameState s) = Except.ok t ∧
      t.playerWallet = s.playerWallet ∧
      t.cacheStates = s.cacheStates ∧
      t.movementHistory = s.movementHistory ∧
      t.playerPos = s.movementHistory.getLast h1 := by
  have hlast : s.movementHistory.getLast? = some (s.movementHistory.getLast h1) :=
    List.getLast?_eq_getLast _ h1
  have hload : Geo.loadGameState luck (Geo.saveGameState s)
      = Except.ok (Geo.populateMap luck
          { Geo.saveGameState s with playerPos := s.movementHistory.getLast h1 }) := by
    simp only [Geo.loadGameState, Geo.saveGameState]
    rw [hlast]
  refine ⟨_, hload, ?_, ?_, ?_, ?_⟩
  · exact (Geo.populateMap_frame luck _).1
  · refine (Geo.populateMap_cacheStates_covered luck _ ?_).trans rfl
    intro c hc hluck
    exact h2 c hc hluck
  · exact (Geo.populateMap_frame luck _).2.1
  · exact (Geo.populateMap_frame luck _).2.2.1

/-- Witness for the persistence round-trip at the initial state with a
luck function that never spawns. -/
theorem persistence_round_trip_spot :
    ∃ t : Geo.GameState,
      Geo.loadGameState (fun _ => (1 : ℚ) / 2) (Geo.saveGameState Geo.initialState)
        = Except.ok t ∧
      t.playerWallet = Geo.initialState.playerWallet ∧
      t.cacheStates = Geo.initialState.cacheStates ∧
      t.movementHistory = Geo.initialState.movementHistory ∧
      t.playerPos = Geo.initialState.movementHistory.getLast
        (by simp [Geo.initialState] : Geo.initialState.movementHistory ≠ []) :=
  persistence_round_trip (fun _ => (1 : ℚ) / 2) Geo.initialState
    (by simp [Geo.initialState])
    (by
      intro c _ hluck
      simp only [Geo.cellLuck, Geo.CACHE_SPAWN_PROBABILITY] at hluck
      norm_num at hluck)

/-- **C5.** Deterministic cache spawning: for a cell evaluated during a
visibility refresh (`populateMap` applies this per-cell evaluator to
every visible cell), a cache spawns iff the luck value of the key
\x22i:j\x22 is below the 0.1 threshold and the store has no entry for
that key; when it spawns, the new store entry and rendered cache hold
exactly `floor(luck(key)*100)` coins — between 0 and 99 for luck in
[0,1) — with serials `0..count-1` in spawn order and `spawnLocation`
equal to the cell; and the same key always yields the same spawn
decision and coin count. -/
theorem deterministic_spawn (luck : String → ℚ) (s : Geo.GameState) (cell : Geo.Cell)
    (h0 : 0 ≤ luck (Geo.cellToString cell)) (h1 : luck (Geo.cellToString cell) < 1) :
    ((getEntry (Geo.cellToString cell) s.cacheStates = none ∧
        luck (Geo.cellToString cell) < Geo.CACHE_SPAWN_PROBABILITY) →
      getEntry (Geo.cellToString cell) (Geo.spawnCacheIfNeeded luck s cell).cacheStates
          = some (Geo.origCoins cell (Geo.spawnCount luck (Geo.cellToString cell))) ∧
      getEntry (Geo.cellToString cell) (Geo.spawnCacheIfNeeded luck s cell).activeCaches
          = some (Geo.createNewCache cell (Geo.spawnCount luck (Geo.cellToString cell)))) ∧
    (¬ (getEntry (Geo.cellToString cell) s.cacheStates = none ∧
        luck (Geo.cellToString cell) < Geo.CACHE_SPAWN_PROBABILITY) →
      Geo.spawnCacheIfNeeded luck s cell = s) ∧
    (Geo.createNewCache cell (Geo.spawnCount luck (Geo.cellToString cell))).coins
        = Geo.origCoins cell (Geo.spawnCount luck (Geo.cellToString cell)) ∧
    (Geo.createNewCache cell (Geo.spawnCount luck (Geo.cellToString cell))).coins.length
        = Geo.spawnCount luck (Geo.cellToString cell) ∧
    ((Geo.spawnCount luck (Geo.cellToString cell) : Int)
        = Int.floor (luck (Geo.cellToString cell) * 100)) ∧
    Geo.spawnCount luck (Geo.cellToString cell) ≤ 99 ∧
    (∀ m : Nat, m < Geo.spawnCount luck (Geo.cellToString cell) →
      (Geo.origCoins cell (Geo.spawnCount luck (Geo.cellToString cell)))[m]?
        = some { spawnLocation := cell, serial := m }) ∧
    (∀ coin ∈ Geo.origCoins cell (Geo.spawnCount luck (Geo.cellToString cell)),
      coin.spawnLocation = cell) ∧
    (∀ cell2 : Geo.Cell, Geo.cellToString cell2 = Geo.cellToString cell →
      Geo.spawnCount luck (Geo.cellToString cell2)
        = Geo.spawnCount luck (Geo.cellToString cell) ∧
      (Geo.cellLuck luck cell2 < Geo.CACHE_SPAWN_PROBABILITY
        ↔ Geo.cellLuck luck cell < Geo.CACHE_SPAWN_PROBABILITY)) := by
  have hfloor0 : 0 ≤ Int.floor (luck (Geo.cellToString cell) * 100) := by
    apply Int.floor_nonneg.2
    positivity
  refine ⟨?_, ?_, ?_, ?_, ?_, ?_, ?_, ?_, ?_⟩
  · intro hcond
    have hc2 : Geo.cellLuck luck cell < Geo.CACHE_SPAWN_PROBABILITY := hcond.2
    unfold Geo.spawnCacheIfNeeded
    rw [if_pos hcond.1, if_pos hc2, Geo.spawnCache_eq]
    exact ⟨getEntry_setEntry_self _ _ _, by
      rw [getEntry_setEntry_self, Geo.createNewCache_eq]⟩
  · intro hcond
    unfold Geo.spawnCacheIfNeeded
    by_cases hA : getEntry (Geo.cellToString cell) s.cacheStates = none
    · rw [if_pos hA]
      have hB : ¬ (Geo.cellLuck luck cell < Geo.CACHE_SPAWN_PROBABILITY) :=
        fun hb => hcond ⟨hA, hb⟩
      rw [if_neg hB]
    · rw [if_neg hA]
  · rw [Geo.createNewCache_eq]
  · rw [Geo.createNewCache_eq]
    exact Geo.origCoins_length cell _
  · rw [Geo.spawnCount]
    omega
  · have h100 : luck (Geo.cellToString cell) * 100 < 100 := by nlinarith
    have hlt : Int.floor (luck (Geo.cellToString cell) * 100) < 100 := by
      apply Int.floor_lt.2
      exact_mod_cast h100
    rw [Geo.spawnCount]
    omega
  · intro m hm
    exact Geo.origCoins_getElem cell hm
  · exact Geo.origCoins_spawnLocation cell _
  · intro cell2 hk
    rw [hk]
    exact ⟨rfl, by rw [Geo.cellLuck, Geo.cellLuck, hk]⟩

/-- Witness for deterministic spawning at a concrete cell with
`luck = 1/20`, so `spawnCount = 5`. -/
theorem deterministic_spawn_spot :
    ((getEntry (Geo.cellToString ⟨0, 0⟩) Geo.initialState.cacheStates = none ∧
        (fun _ => (1 : ℚ) / 20) (Geo.cellToString ⟨0, 0⟩) < Geo.CACHE_SPAWN_PROBABILITY) →
      getEntry (Geo.cellToString ⟨0, 0⟩)
          (Geo.spawnCacheIfNeeded (fun _ => (1 : ℚ) / 20) Geo.initialState ⟨0, 0⟩).cacheStates
          = some (Geo.origCoins ⟨0, 0⟩
              (Geo.spawnCount (fun _ => (1 : ℚ) / 20) (Geo.cellToString ⟨0, 0⟩))) ∧
      getEntry (Geo.cellToString ⟨0, 0⟩)
          (Geo.spawnCacheIfNeeded (fun _ => (1 : ℚ) / 20) Geo.initialState ⟨0, 0⟩).activeCaches
          = some (Geo.createNewCache ⟨0, 0⟩
              (Geo.spawnCount (fun _ => (1 : ℚ) / 20) (Geo.cellToString ⟨0, 0⟩)))) ∧
    (¬ (getEntry (Geo.cellToString ⟨0, 0⟩) Geo.initialState.cacheStates = none ∧
        (fun _ => (1 : ℚ) / 20) (Geo.cellToString ⟨0, 0⟩) < Geo.CACHE_SPAWN_PROBABILITY) →
      Geo.spawnCacheIfNeeded (fun _ => (1 : ℚ) / 20) Geo.initialState ⟨0, 0⟩
        = Geo.initialState) ∧
    (Geo.createNewCache ⟨0, 0⟩
        (Geo.spawnCount (fun _ => (1 : ℚ) / 20) (Geo.cellToString ⟨0, 0⟩))).coins
      = Geo.origCoins ⟨0, 0⟩
          (Geo.spawnCount (fun _ => (1 : ℚ) / 20) (Geo.cellToString ⟨0, 0⟩)) ∧
    (Geo.createNewCache ⟨0, 0⟩
        (Geo.spawnCount (fun _ => (1 : ℚ) / 20) (Geo.cellToString ⟨0, 0⟩))).coins.length
      = Geo.spawnCount (fun _ => (1 : ℚ) / 20) (Geo.cellToString ⟨0, 0⟩) ∧
    ((Geo.spawnCount (fun _ => (1 : ℚ) / 20) (Geo.cellToString ⟨0, 0⟩) : Int)
      = Int.floor ((fun _ => (1 : ℚ) / 20) (Geo.cellToString ⟨0, 0⟩) * 100)) ∧
    Geo.spawnCount (fun _ => (1 : ℚ) / 20) (Geo.cellToString ⟨0, 0⟩) ≤ 99 ∧
    (∀ m : Nat, m < Geo.spawnCount (fun _ => (1 : ℚ) / 20) (Geo.cellToString ⟨0, 0⟩) →
      (Geo.origCoins ⟨0, 0⟩
        (Geo.spawnCount (fun _ => (1 : ℚ) / 20) (Geo.cellToString ⟨0, 0⟩)))[m]?
        = some { spawnLocation := ⟨0, 0⟩, serial := m }) ∧
    (∀ coin ∈ Geo.origCoins ⟨0, 0⟩
        (Geo.spawnCount (fun _ => (1 : ℚ) / 20) (Geo.cellToString ⟨0, 0⟩)),
      coin.spawnLocation = ⟨0, 0⟩) ∧
    (∀ cell2 : Geo.Cell, Geo.cellToString cell2 = Geo.cellToString ⟨0, 0⟩ →
      Geo.spawnCount (fun _ => (1 : ℚ) / 20) (Geo.cellToString cell2)
        = Geo.spawnCount (fun _ => (1 : ℚ) / 20) (Geo.cellToString ⟨0, 0⟩) ∧
      (Geo.cellLuck (fun _ => (1 : ℚ) / 20) cell2 < Geo.CACHE_SPAWN_PROBABILITY
        ↔ Geo.cellLuck (fun _ => (1 : ℚ) / 20) ⟨0, 0⟩ < Geo.CACHE_SPAWN_PROBABILITY)) :=
  deterministic_spawn (fun _ => (1 : ℚ) / 20) Geo.initialState ⟨0, 0⟩
    (by norm_num) (by norm_num)

/-- **C6.** Collect/deposit stack semantics and empty no-ops: on a
rendered cache, collect pops the cache's last coin, pushes it onto the
wallet, and writes the updated list back to the store; collect on an
empty cache is a silent no-op returning the state unchanged.
Symmetrically, deposit pops the wallet's last coin and pushes it onto
the cache's list, writing back to the store, and is a no-op when the
wallet is empty.  Both operations are total functions — the failure
modes are the identity, nothing throws. -/
theorem collect_deposit_stack (s : Geo.GameState) (key : String) (cache : Geo.Cache)
    (hc : getEntry key s.activeCaches = some cache) :
    (∀ cs coin, cache.coins = cs ++ [coin] →
      (Geo.collect s key).playerWallet = s.playerWallet ++ [coin] ∧
      getEntry key (Geo.collect s key).activeCaches
        = some { cache with coins := cs } ∧
      getEntry key (Geo.collect s key).cacheStates = some cs) ∧
    (cache.coins = [] → Geo.collect s key = s) ∧
    (∀ ws coin, s.playerWallet = ws ++ [coin] →
      (Geo.deposit s key).playerWallet = ws ∧
      getEntry key (Geo.deposit s key).activeCaches
        = some { cache with coins := cache.coins ++ [coin] } ∧
      getEntry key (Geo.deposit s key).cacheStates = some (cache.coins ++ [coin])) ∧
    (s.playerWallet = [] → Geo.deposit s key = s) := by
  refine ⟨?_, ?_, ?_, ?_⟩
  · intro cs coin hsplit
    rcases Geo.collect_cases s key with ⟨ha, _⟩ | ⟨cache2, ha, hl, _⟩ |
      ⟨cache2, coin2, ha, hl, heq⟩
    · rw [hc] at ha
      exact Option.noConfusion ha
    · have hcc := Option.some.inj (hc.symm.trans ha)
      rw [← hcc, hsplit, List.getLast?_concat] at hl
      exact Option.noConfusion hl
    · have hcc := Option.some.inj (hc.symm.trans ha)
      rw [← hcc] at hl heq
      rw [hsplit, List.getLast?_concat] at hl
      have hcoin := Option.some.inj hl
      rw [heq, ← hcoin]
      refine ⟨rfl, ?_, ?_⟩
      · show getEntry key (setEntry key _ s.activeCaches) = _
        rw [getEntry_setEntry_self, hsplit, List.dropLast_concat]
      · show getEntry key (setEntry key _ s.cacheStates) = _
        rw [getEntry_setEntry_self, hsplit, List.dropLast_concat]
  · intro hnil
    rcases Geo.collect_cases s key with ⟨ha, heq⟩ | ⟨cache2, ha, hl, heq⟩ |
      ⟨cache2, coin2, ha, hl, heq⟩
    · rw [hc] at ha
      exact Option.noConfusion ha
    · exact heq
    · have hcc := Option.some.inj (hc.symm.trans ha)
      rw [← hcc, hnil] at hl
      simp at hl
  · intro ws coin hsplit
    rcases Geo.deposit_cases s key with ⟨ha, _⟩ | ⟨cache2, ha, hl, _⟩ |
      ⟨cache2, coin2, ha, hl, heq⟩
    · rw [hc] at ha
      exact Option.noConfusion ha
    · rw [hsplit, List.getLast?_concat] at hl
      exact Option.noConfusion hl
    · have hcc := Option.some.inj (hc.symm.trans ha)
      rw [← hcc] at heq
      rw [hsplit, List.getLast?_concat] at hl
      have hcoin := Option.some.inj hl
      rw [heq, ← hcoin]
      refine ⟨?_, ?_, ?_⟩
      · show s.playerWallet.dropLast = ws
        rw [hsplit, List.dropLast_concat]
      · show getEntry key (setEntry key _ s.activeCaches) = _
        rw [getEntry_setEntry_self]
      · show getEntry key (setEntry key _ s.cacheStates) = _
        rw [getEntry_setEntry_self]
  · intro hnil
    rcases Geo.deposit_cases s key with ⟨ha, heq⟩ | ⟨cache2, ha, hl, heq⟩ |
      ⟨cache2, coin2, ha, hl, heq⟩
    · rw [hc] at ha
      exact Option.noConfusion ha
    · exact heq
    · rw [hnil] at hl
      simp at hl

/-- Witness for the stack semantics at a concrete one-coin rendered
cache. -/
theorem collect_deposit_stack_spot :
    ((Geo.collect
        { Geo.initialState with
          activeCaches := [("0:0",
            { coins := [{ spawnLocation := ⟨0, 0⟩, serial := 0 }], serialNumber := 1,
              location := ⟨0, 0⟩ })] } "0:0").playerWallet
      = Geo.initialState.playerWallet ++ [{ spawnLocation := ⟨0, 0⟩, serial := 0 }]) ∧
    (Geo.deposit
        { Geo.initialState with
          activeCaches := [("0:0",
            { coins := [{ spawnLocation := ⟨0, 0⟩, serial := 0 }], serialNumber := 1,
              location := ⟨0, 0⟩ })] } "0:0"
      = { Geo.initialState with
          activeCaches := [("0:0",
            { coins := [{ spawnLocation := ⟨0, 0⟩, serial := 0 }], serialNumber := 1,
              location := ⟨0, 0⟩ })] }) := by
  have h := collect_deposit_stack
    { Geo.initialState with
      activeCaches := [("0:0",
        { coins := [{ spawnLocation := ⟨0, 0⟩, serial := 0 }], serialNumber := 1,
          location := ⟨0, 0⟩ })] } "0:0"
    { coins := [{ spawnLocation := ⟨0, 0⟩, serial := 0 }], serialNumber := 1,
      location := ⟨0, 0⟩ }
    (by simp [getEntry])
  exact ⟨(h.1 [] { spawnLocation := ⟨0, 0⟩, serial := 0 } (by simp)).1,
    h.2.2.2 rfl⟩

/-- **C7 counterexample.** The claim says a snapshot is written after
every mutating operation including movement, but `movePlayer` never
writes to storage: at the concrete fresh session, moving one tile north
changes the movement history while the persisted snapshot stays absent,
so no snapshot reflecting the post-movement state exists. -/
theorem snapshot_movement_cex :
    (Geo.movePlayer (fun _ => (1 : ℚ) / 2) Geo.initialState Geo.TILE_DEGREES 0).movementHistory
      ≠ Geo.initialState.movementHistory ∧
    (Geo.movePlayer (fun _ => (1 : ℚ) / 2) Geo.initialState Geo.TILE_DEGREES 0).storage
      = none := by
  constructor
  · simp only [Geo.movePlayer]
    intro hcontra
    rw [(Geo.populateMap_frame _ _).2.1] at hcontra
    have hlen := congrArg List.length hcontra
    simp [Geo.initialState] at hlen
  · simp only [Geo.movePlayer]
    rw [(Geo.populateMap_frame _ _).2.2.2]
    rfl

/-- **C7 amended.** Collect and deposit write the snapshot only after
their mutation is fully applied: whenever they mutate, the resulting
storage is exactly the snapshot of the resulting wallet, store, and
history.  The confirmed reset also saves after its clears, but before
its final visibility refresh, so its snapshot records the cleared
wallet and truncated history together with the store as rewritten by
the reset.  Movement writes no snapshot at all. -/
theorem snapshot_after_mutation (luck : String → ℚ) (s : Geo.GameState) (k : String)
    (dLat dLng : ℚ) :
    (Geo.collect s k = s ∨
      (Geo.collect s k).storage = some (Geo.Stored.wellFormed
        { playerWallet := (Geo.collect s k).playerWallet,
          cacheStates := (Geo.collect s k).cacheStates,
          movementHistory := (Geo.collect s k).movementHistory })) ∧
    (Geo.deposit s k = s ∨
      (Geo.deposit s k).storage = some (Geo.Stored.wellFormed
        { playerWallet := (Geo.deposit s k).playerWallet,
          cacheStates := (Geo.deposit s k).cacheStates,
          movementHistory := (Geo.deposit s k).movementHistory })) ∧
    (Geo.resetGame luck s).storage = some (Geo.Stored.wellFormed
      { playerWallet := [],
        cacheStates := Geo.rewriteStore s.cacheStates,
        movementHistory := s.movementHistory.take 1 }) ∧
    (Geo.movePlayer luck s dLat dLng).storage = s.storage := by
  refine ⟨?_, ?_, ?_, ?_⟩
  · rcases Geo.collect_cases s k with ⟨_, heq⟩ | ⟨_, _, _, heq⟩ | ⟨cache, coin, _, _, heq⟩
    · exact Or.inl heq
    · exact Or.inl heq
    · right
      rw [heq]
      rfl
  · rcases Geo.deposit_cases s k with ⟨_, heq⟩ | ⟨_, _, _, heq⟩ | ⟨cache, coin, _, _, heq⟩
    · exact Or.inl heq
    · exact Or.inl heq
    · right
      rw [heq]
      rfl
  · unfold Geo.resetGame
    rw [(Geo.populateMap_frame _ _).2.2.2]
    rfl
  · simp only [Geo.movePlayer]
    rw [(Geo.populateMap_frame _ _).2.2.2]

/-- **C8 counterexample.** Loading a malformed persisted snapshot does
not fall back to the defaults: `JSON.parse` throws and `loadGameState`
has no try/catch, so the parse failure propagates out of the load. -/
theorem malformed_load_cex :
    Geo.loadGameState (fun _ => (1 : ℚ) / 2)
        { Geo.initialState with storage := some Geo.Stored.malformed }
      = Except.error () := rfl

/-- **C8 amended.** An absent snapshot is handled: the load returns the
session unchanged, so a fresh session keeps its defaults (start
location, empty wallet, empty store, history of length one).  A
malformed snapshot is not handled: the parse failure propagates as an
error out of the load. -/
theorem malformed_load_amended (luck : String → ℚ) (s : Geo.GameState) :
    (s.storage = none → Geo.loadGameState luck s = Except.ok s) ∧
    (s.storage = some Geo.Stored.malformed →
      Geo.loadGameState luck s = Except.error ()) := by
  constructor
  · intro h
    unfold Geo.loadGameState
    rw [h]
  · intro h
    unfold Geo.loadGameState
    rw [h]

/-- Witness for the amended load behavior: the fresh session has no
snapshot and keeps its defaults; a malformed snapshot errors. -/
theorem malformed_load_amended_spot :
    Geo.loadGameState (fun _ => (1 : ℚ) / 2) Geo.initialState
      = Except.ok Geo.initialState ∧
    Geo.loadGameState (fun _ => (1 : ℚ) / 2)
        { Geo.initialState with storage := some Geo.Stored.malformed }
      = Except.error () :=
  ⟨(malformed_load_amended (fun _ => (1 : ℚ) / 2) Geo.initialState).1 rfl,
   (malformed_load_amended (fun _ => (1 : ℚ) / 2)
      { Geo.initialState with storage := some Geo.Stored.malformed }).2 rfl⟩

theorem foldl_setEntry_self {α : Type} (acc : List (String × α)) :
    ∀ l : List (String × α), (∀ e ∈ l, getEntry e.1 acc = some e.2) →
      l.foldl (fun a e => setEntry e.1 e.2 a) acc = acc
  | [], _ => rfl
  | e :: l, h => by
      simp only [List.foldl_cons]
      rw [setEntry_of_mem_self (h e (List.mem_cons_self e l))]
      exact foldl_setEntry_self acc l (fun e2 he2 => h e2 (List.mem_cons_of_mem e he2))

namespace Geo

theorem rewriteStore_id {st : List (String × List Coin)}
    (hnd : (st.map Prod.fst).Nodup) : rewriteStore st = st := by
  unfold rewriteStore
  exact foldl_setEntry_self st st (fun e he => getEntry_of_mem_nodup hnd he)

end Geo

/-- **C9.** Reset effect and frame: the confirmed reset clears the
wallet, truncates the movement history to its first entry, empties the
set of active cache renderings (before the final refresh re-renders the
window at the start location), repositions the player at the start
location, and persists the cleared state; meanwhile every cache-state
store entry's coin sequence is left unchanged — the handler rewrites
each entry to itself rather than restoring the originally spawned
contents. -/
theorem reset_effect_frame (luck : String → ℚ) (s : Geo.GameState)
    (hnd : (s.cacheStates.map Prod.fst).Nodup) :
    (Geo.resetGame luck s).playerWallet = [] ∧
    (Geo.resetGame luck s).movementHistory = s.movementHistory.take 1 ∧
    (Geo.resetGame luck s).playerPos = Geo.OAKES_CLASSROOM ∧
    (Geo.resetCore s).activeCaches = [] ∧
    (Geo.resetGame luck s).storage = some (Geo.Stored.wellFormed
      { playerWallet := [], cacheStates := s.cacheStates,
        movementHistory := s.movementHistory.take 1 }) ∧
    Geo.rewriteStore s.cacheStates = s.cacheStates ∧
    (∀ k cs, getEntry k s.cacheStates = some cs →
      getEntry k (Geo.resetGame luck s).cacheStates = some cs) := by
  have hid := Geo.rewriteStore_id hnd
  refine ⟨?_, ?_, ?_, rfl, ?_, hid, ?_⟩
  · unfold Geo.resetGame
    rw [(Geo.populateMap_frame _ _).1]
    rfl
  · unfold Geo.resetGame
    rw [(Geo.populateMap_frame _ _).2.1]
    rfl
  · unfold Geo.resetGame
    rw [(Geo.populateMap_frame _ _).2.2.1]
    rfl
  · unfold Geo.resetGame
    rw [(Geo.populateMap_frame _ _).2.2.2]
    show some (Geo.Stored.wellFormed
      { playerWallet := [], cacheStates := Geo.rewriteStore s.cacheStates,
        movementHistory := s.movementHistory.take 1 }) = _
    rw [hid]
  · intro k cs hk
    unfold Geo.resetGame
    apply Geo.populateMap_entry
    show getEntry k (Geo.rewriteStore s.cacheStates) = some cs
    rw [hid]
    exact hk

/-- Witness for the reset theorem at the initial state. -/
theorem reset_effect_frame_spot :
    (Geo.resetGame (fun _ => (1 : ℚ) / 2) Geo.initialState).playerWallet = [] ∧
    (Geo.resetGame (fun _ => (1 : ℚ) / 2) Geo.initialState).movementHistory
      = Geo.initialState.movementHistory.take 1 ∧
    (Geo.resetGame (fun _ => (1 : ℚ) / 2) Geo.initialState).playerPos
      = Geo.OAKES_CLASSROOM ∧
    (Geo.resetCore Geo.initialState).activeCaches = [] ∧
    (Geo.resetGame (fun _ => (1 : ℚ) / 2) Geo.initialState).storage
      = some (Geo.Stored.wellFormed
        { playerWallet := [], cacheStates := Geo.initialState.cacheStates,
          movementHistory := Geo.initialState.movementHistory.take 1 }) ∧
    Geo.rewriteStore Geo.initialState.cacheStates = Geo.initialState.cacheStates ∧
    (∀ k cs, getEntry k Geo.initialState.cacheStates = some cs →
      getEntry k (Geo.resetGame (fun _ => (1 : ℚ) / 2) Geo.initialState).cacheStates
        = some cs) :=
  reset_effect_frame (fun _ => (1 : ℚ) / 2) Geo.initialState
    (by simp [Geo.initialState])

namespace Geo

theorem deposit_foreign_coin (luck : String → ℚ) (s0 : GameState)
    (cellA cellB : Cell)
    (hkeys : cellToString cellA ≠ cellToString cellB)
    (hnA : 0 < spawnCount luck (cellToString cellA)) :
    ∃ cs : List Coin,
      getEntry (cellToString cellB)
        ((deposit
          (spawnCache luck (collect (spawnCache luck s0 cellA) (cellToString cellA)) cellB)
          (cellToString cellB)).cacheStates) = some cs ∧
      ∃ coin ∈ cs, coin.spawnLocation = cellA ∧ coin.spawnLocation ≠ cellB := by
  obtain ⟨m, hm⟩ : ∃ m, spawnCount luck (cellToString cellA) = m + 1 :=
    ⟨spawnCount luck (cellToString cellA) - 1, (Nat.succ_pred_eq_of_pos hnA).symm⟩
  have hAB : cellA ≠ cellB := fun h => hkeys (congrArg cellToString h)
  have hs1a : getEntry (cellToString cellA) (spawnCache luck s0 cellA).activeCaches
      = some { coins := origCoins cellA (spawnCount luck (cellToString cellA)),
               serialNumber := spawnCount luck (cellToString cellA),
               location := cellA } := by
    rw [spawnCache_eq]
    exact getEntry_setEntry_self _ _ _
  have hlast : (origCoins cellA (spawnCount luck (cellToString cellA))).getLast?
      = some { spawnLocation := cellA, serial := m } := by
    rw [hm]
    exact origCoins_getLast cellA m
  rcases collect_cases (spawnCache luck s0 cellA) (cellToString cellA)
    with ⟨ha, _⟩ | ⟨cache, ha, hl, _⟩ | ⟨cache, coin, ha, hl, heq2⟩
  · rw [hs1a] at ha
    exact Option.noConfusion ha
  · rw [hs1a] at ha
    have hcc := Option.some.inj ha
    rw [← hcc, hlast] at hl
    exact Option.noConfusion hl
  · rw [hs1a] at ha
    have hcc := Option.some.inj ha
    rw [← hcc] at hl
    rw [hlast] at hl
    have hcoin := Option.some.inj hl
    have hw2 : (collect (spawnCache luck s0 cellA) (cellToString cellA)).playerWallet
        = s0.playerWallet ++ [{ spawnLocation := cellA, serial := m }] := by
      rw [heq2, hcoin]
      rfl
    have hs3a : getEntry (cellToString cellB)
        (spawnCache luck (collect (spawnCache luck s0 cellA) (cellToString cellA))
          cellB).activeCaches
        = some { coins := origCoins cellB (spawnCount luck (cellToString cellB)),
                 serialNumber := spawnCount luck (cellToString cellB),
                 location := cellB } := by
      rw [spawnCache_eq]
      exact getEntry_setEntry_self _ _ _
    have hw3 : (spawnCache luck (collect (spawnCache luck s0 cellA) (cellToString cellA))
          cellB).playerWallet
        = s0.playerWallet ++ [{ spawnLocation := cellA, serial := m }] := hw2
    rcases deposit_cases
      (spawnCache luck (collect (spawnCache luck s0 cellA) (cellToString cellA)) cellB)
      (cellToString cellB)
      with ⟨ha3, _⟩ | ⟨cache3, ha3, hl3, _⟩ | ⟨cache3, coin3, ha3, hl3, heq3⟩
    · rw [hs3a] at ha3
      exact Option.noConfusion ha3
    · rw [hw3, List.getLast?_concat] at hl3
      exact Option.noConfusion hl3
    · rw [hw3, List.getLast?_concat] at hl3
      have hcoin3 := Option.some.inj hl3
      refine ⟨cache3.coins ++ [coin3], ?_, coin3, ?_, ?_, ?_⟩
      · rw [heq3]
        show getEntry _ (setEntry _ _ _) = _
        exact getEntry_setEntry_self _ _ _
      · exact List.mem_append_right _ (List.mem_singleton_self _)
      · rw [← hcoin3]
      · rw [← hcoin3]
        exact hAB

end Geo

/-- **C10.** Coin identity is immutable under transfer: a coin's
`spawnLocation` and `serial` are fixed at construction, and collect and
deposit move the coin value intact — the coin entering the wallet is
exactly the cache's last coin, with the same spawn cell, serial, and
identity string, and the coin entering a cache is exactly the wallet's
last coin.  Consequently a store entry for one cell may contain a coin
whose spawn cell is different: spawning at one cell, collecting there,
then spawning and depositing at another cell leaves the second entry
holding a coin spawned at the first cell. -/
theorem coin_identity_immutable (s : Geo.GameState) (key : String) (cache : Geo.Cache)
    (hc : getEntry key s.activeCaches = some cache) :
    (∀ cs coin, cache.coins = cs ++ [coin] →
      (Geo.collect s key).playerWallet = s.playerWallet ++ [coin] ∧
      (Geo.collect s key).playerWallet.getLast?.map Geo.serializeCoin
        = some (Geo.serializeCoin coin) ∧
      (Geo.collect s key).playerWallet.getLast?.map Geo.Coin.spawnLocation
        = some coin.spawnLocation ∧
      (Geo.collect s key).playerWallet.getLast?.map Geo.Coin.serial
        = some coin.serial) ∧
    (∀ ws coin, s.playerWallet = ws ++ [coin] →
      getEntry key (Geo.deposit s key).cacheStates = some (cache.coins ++ [coin]) ∧
      (cache.coins ++ [coin]).getLast?.map Geo.serializeCoin
        = some (Geo.serializeCoin coin)) ∧
    (∀ (luck : String → ℚ) (s0 : Geo.GameState) (cellA cellB : Geo.Cell),
      Geo.cellToString cellA ≠ Geo.cellToString cellB →
      0 < Geo.spawnCount luck (Geo.cellToString cellA) →
      ∃ cs : List Geo.Coin,
        getEntry (Geo.cellToString cellB)
          ((Geo.deposit
            (Geo.spawnCache luck
              (Geo.collect (Geo.spawnCache luck s0 cellA) (Geo.cellToString cellA)) cellB)
            (Geo.cellToString cellB)).cacheStates) = some cs ∧
        ∃ coin ∈ cs, coin.spawnLocation = cellA ∧ coin.spawnLocation ≠ cellB) := by
  refine ⟨?_, ?_, ?_⟩
  · intro cs coin hsplit
    rcases Geo.collect_cases s key with ⟨ha, _⟩ | ⟨cache2, ha, hl, _⟩ |
      ⟨cache2, coin2, ha, hl, heq⟩
    · rw [hc] at ha
      exact Option.noConfusion ha
    · have hcc := Option.some.inj (hc.symm.trans ha)
      rw [← hcc, hsplit, List.getLast?_concat] at hl
      exact Option.noConfusion hl
    · have hcc := Option.some.inj (hc.symm.trans ha)
      rw [← hcc] at hl heq
      rw [hsplit, List.getLast?_concat] at hl
      have hcoin := Option.some.inj hl
      have hw : (Geo.collect s key).playerWallet = s.playerWallet ++ [coin] := by
        rw [heq, ← hcoin]
        rfl
      refine ⟨hw, ?_, ?_, ?_⟩ <;> rw [hw, List.getLast?_concat] <;> rfl
  · intro ws coin hsplit
    rcases Geo.deposit_cases s key with ⟨ha, _⟩ | ⟨cache2, ha, hl, _⟩ |
      ⟨cache2, coin2, ha, hl, heq⟩
    · rw [hc] at ha
      exact Option.noConfusion ha
    · rw [hsplit, List.getLast?_concat] at hl
      exact Option.noConfusion hl
    · have hcc := Option.some.inj (hc.symm.trans ha)
      rw [← hcc] at heq
      rw [hsplit, List.getLast?_concat] at hl
      have hcoin := Option.some.inj hl
      constructor
      · rw [heq, ← hcoin]
        show getEntry key (setEntry key _ s.cacheStates) = _
        exact getEntry_setEntry_self _ _ _
      · rw [List.getLast?_concat]
        rfl
  · intro luck s0 cellA cellB hkeys hnA
    exact Geo.deposit_foreign_coin luck s0 cellA cellB hkeys hnA

/-- Witness for coin-identity immutability: collecting the single coin
of a concrete rendered cache moves exactly that coin into the wallet,
and the concrete cross-cell scenario leaves the cache at (0, 1) holding
a coin spawned at (0, 0). -/
theorem coin_identity_immutable_spot :
    (Geo.collect
        { Geo.initialState with
          activeCaches := [("0:0",
            { coins := [{ spawnLocation := ⟨0, 0⟩, serial := 0 }], serialNumber := 1,
              location := ⟨0, 0⟩ })] } "0:0").playerWallet
      = Geo.initialState.playerWallet ++ [{ spawnLocation := ⟨0, 0⟩, serial := 0 }] ∧
    ∃ cs : List Geo.Coin,
      getEntry (Geo.cellToString ⟨0, 1⟩)
        ((Geo.deposit
          (Geo.spawnCache (fun _ => (1 : ℚ) / 20)
            (Geo.collect (Geo.spawnCache (fun _ => (1 : ℚ) / 20) Geo.initialState ⟨0, 0⟩)
              (Geo.cellToString ⟨0, 0⟩)) ⟨0, 1⟩)
          (Geo.cellToString ⟨0, 1⟩)).cacheStates) = some cs ∧
      ∃ coin ∈ cs, coin.spawnLocation = ⟨0, 0⟩ ∧ coin.spawnLocation ≠ ⟨0, 1⟩ := by
  have h := coin_identity_immutable
    { Geo.initialState with
      activeCaches := [("0:0",
        { coins := [{ spawnLocation := ⟨0, 0⟩, serial := 0 }], serialNumber := 1,
          location := ⟨0, 0⟩ })] } "0:0"
    { coins := [{ spawnLocation := ⟨0, 0⟩, serial := 0 }], serialNumber := 1,
      location := ⟨0, 0⟩ }
    (by simp [getEntry])
  refine ⟨(h.1 [] { spawnLocation := ⟨0, 0⟩, serial := 0 } (by simp)).1, ?_⟩
  exact h.2.2 (fun _ => (1 : ℚ) / 20) Geo.initialState ⟨0, 0⟩ ⟨0, 1⟩
    (by decide) (by simp only [Geo.spawnCount]; norm_num)
